import Mathlib

/-!
# core::markdown (Markdown.cpp): the Markdown to HTML pipeline

A shallow embedding of `src/cpp/core/markdown/Markdown.cpp`.

* A `std::string` is the list of its `char` elements (`Str`); one list element
  stands for one `char` of the C++ string.  ASCII texts are written as string
  literals.
* The collaborators that live outside the file (the sundown parser and its
  buffers, the smartypants pass, the UUID generator, the constants of the
  sundown headers) are the fields of `Env`.  A sundown buffer holds a text of
  any characters; reading it back through `c_str()` stops at the first NUL
  (`c_str`).
* `boost::regex_replace` is modelled by a backtracking matcher (leftmost
  match, greedy repetition) for the two patterns of `MathFilter`, and
  `boost::algorithm::replace_all` by a left-to-right scan.  Resource limits of
  the libraries (memory inside the string operations, the complexity guard of
  the matcher) are not modelled.
-/

namespace Markdown

/-- The contents of a `std::string`. -/
abbrev Str := List Char

/-! ## Extensions and HTMLOptions (Markdown.hpp) -/

/-- The struct `Extensions`: the Markdown dialect toggles. -/
structure Extensions where
  noIntraEmphasis : Bool
  tables : Bool
  fencedCode : Bool
  autolink : Bool
  strikethrough : Bool
  laxSpacing : Bool
  spaceHeaders : Bool
  superscript : Bool
  ignoreMath : Bool
deriving DecidableEq, Repr

/-- The struct `HTMLOptions`: the output toggles. -/
structure HTMLOptions where
  useXHTML : Bool
  hardWrap : Bool
  smartypants : Bool
  safelink : Bool
  toc : Bool
  skipHTML : Bool
  skipStyle : Bool
  skipImages : Bool
  skipLinks : Bool
  escape : Bool
deriving DecidableEq, Repr

/-- The `MKDEXT_*` constants of `sundown/markdown.h` that `renderMarkdown`
reads.  The header is not part of the sources, so the values are a parameter. -/
structure MkdExt where
  NO_INTRA_EMPHASIS : Nat
  TABLES : Nat
  FENCED_CODE : Nat
  AUTOLINK : Nat
  STRIKETHROUGH : Nat
  LAX_SPACING : Nat
  SPACE_HEADERS : Nat
  SUPERSCRIPT : Nat
deriving DecidableEq, Repr

/-- The `HTML_*` render mode constants of `sundown/html.h` that
`markdownToHTML` reads.  The header is not part of the sources, so the values
are a parameter. -/
structure HtmlMode where
  USE_XHTML : Nat
  HARD_WRAP : Nat
  TOC : Nat
  SAFELINK : Nat
  SKIP_HTML : Nat
  SKIP_STYLE : Nat
  SKIP_IMAGES : Nat
  SKIP_LINKS : Nat
  ESCAPE : Nat
deriving DecidableEq, Repr

/-- One `if (flag) mask |= BIT;` statement. -/
def orIf (flag : Bool) (bit : Nat) (mask : Nat) : Nat :=
  if flag then mask ||| bit else mask

/-- The local `mdExt` of `renderMarkdown` (lines 157-173): starts at 0 and
takes one `|=` per enabled extension, in source order. -/
def mdExt (K : MkdExt) (extensions : Extensions) : Nat :=
  let m := 0
  let m := orIf extensions.noIntraEmphasis K.NO_INTRA_EMPHASIS m
  let m := orIf extensions.tables K.TABLES m
  let m := orIf extensions.fencedCode K.FENCED_CODE m
  let m := orIf extensions.autolink K.AUTOLINK m
  let m := orIf extensions.strikethrough K.STRIKETHROUGH m
  let m := orIf extensions.laxSpacing K.LAX_SPACING m
  let m := orIf extensions.spaceHeaders K.SPACE_HEADERS m
  let m := orIf extensions.superscript K.SUPERSCRIPT m
  m

/-- The local `htmlRenderMode` of `markdownToHTML` (lines 334-352). -/
def htmlRenderMode (H : HtmlMode) (options : HTMLOptions) : Nat :=
  let m := 0
  let m := orIf options.useXHTML H.USE_XHTML m
  let m := orIf options.hardWrap H.HARD_WRAP m
  let m := orIf options.toc H.TOC m
  let m := orIf options.safelink H.SAFELINK m
  let m := orIf options.skipHTML H.SKIP_HTML m
  let m := orIf options.skipStyle H.SKIP_STYLE m
  let m := orIf options.skipImages H.SKIP_IMAGES m
  let m := orIf options.skipLinks H.SKIP_LINKS m
  let m := orIf options.escape H.ESCAPE m
  m

/-- The constants written as `1 << n`: `pos` holds the bit position of each
constant. -/
def MkdExt.shl (pos : MkdExt) : MkdExt :=
  { NO_INTRA_EMPHASIS := 2 ^ pos.NO_INTRA_EMPHASIS
    TABLES := 2 ^ pos.TABLES
    FENCED_CODE := 2 ^ pos.FENCED_CODE
    AUTOLINK := 2 ^ pos.AUTOLINK
    STRIKETHROUGH := 2 ^ pos.STRIKETHROUGH
    LAX_SPACING := 2 ^ pos.LAX_SPACING
    SPACE_HEADERS := 2 ^ pos.SPACE_HEADERS
    SUPERSCRIPT := 2 ^ pos.SUPERSCRIPT }

/-- The bit positions of the eight constants, in the order of the source. -/
def MkdExt.toList (pos : MkdExt) : List Nat :=
  [pos.NO_INTRA_EMPHASIS, pos.TABLES, pos.FENCED_CODE, pos.AUTOLINK, pos.STRIKETHROUGH,
    pos.LAX_SPACING, pos.SPACE_HEADERS, pos.SUPERSCRIPT]

/-- The constants written as `1 << n`. -/
def HtmlMode.shl (pos : HtmlMode) : HtmlMode :=
  { USE_XHTML := 2 ^ pos.USE_XHTML
    HARD_WRAP := 2 ^ pos.HARD_WRAP
    TOC := 2 ^ pos.TOC
    SAFELINK := 2 ^ pos.SAFELINK
    SKIP_HTML := 2 ^ pos.SKIP_HTML
    SKIP_STYLE := 2 ^ pos.SKIP_STYLE
    SKIP_IMAGES := 2 ^ pos.SKIP_IMAGES
    SKIP_LINKS := 2 ^ pos.SKIP_LINKS
    ESCAPE := 2 ^ pos.ESCAPE }

/-- The bit positions of the nine constants, in the order of the source. -/
def HtmlMode.toList (pos : HtmlMode) : List Nat :=
  [pos.USE_XHTML, pos.HARD_WRAP, pos.TOC, pos.SAFELINK, pos.SKIP_HTML, pos.SKIP_STYLE,
    pos.SKIP_IMAGES, pos.SKIP_LINKS, pos.ESCAPE]

/-- The bitwise OR of a list of masks. -/
def orAll (bits : List Nat) : Nat := bits.foldl (fun m b => m ||| b) 0

/-- The bits of the enabled flags among the eight parser extensions, as the
specification words the mapping: one bit per enabled flag. -/
def enabledExtensionBits (K : MkdExt) (e : Extensions) : List Nat :=
  ([(e.noIntraEmphasis, K.NO_INTRA_EMPHASIS), (e.tables, K.TABLES),
    (e.fencedCode, K.FENCED_CODE), (e.autolink, K.AUTOLINK),
    (e.strikethrough, K.STRIKETHROUGH), (e.laxSpacing, K.LAX_SPACING),
    (e.spaceHeaders, K.SPACE_HEADERS), (e.superscript, K.SUPERSCRIPT)].filter
      (fun fb => fb.1)).map (fun fb => fb.2)

/-- The bits of the enabled options among the nine that the body renderer
takes, as the specification words the mapping. -/
def enabledRenderBits (H : HtmlMode) (o : HTMLOptions) : List Nat :=
  ([(o.useXHTML, H.USE_XHTML), (o.hardWrap, H.HARD_WRAP), (o.toc, H.TOC),
    (o.safelink, H.SAFELINK), (o.skipHTML, H.SKIP_HTML), (o.skipStyle, H.SKIP_STYLE),
    (o.skipImages, H.SKIP_IMAGES), (o.skipLinks, H.SKIP_LINKS), (o.escape, H.ESCAPE)].filter
      (fun fb => fb.1)).map (fun fb => fb.2)

/-! ## The regular expressions of MathFilter -/

/-- The class `\s` in the classic locale: space, `\t`, `\n`, `\v`, `\f`, `\r`. -/
def isSpace (c : Char) : Bool :=
  c == ' ' || c == '\t' || c == '\n' || c == Char.ofNat 11 || c == Char.ofNat 12 || c == '\r'

/-- The fragment of regular expressions that the two patterns use: one
character of a class, concatenation, and greedy `+` over a class. -/
inductive Regex where
  | atom (p : Char → Bool)
  | seq (r s : Regex)
  | plus (p : Char → Bool)

/-- Greedy `p+` with backtracking: take one more character first, and fall
back to stopping here when the rest of the pattern fails.  `acc` is the text
matched so far, `k` the rest of the pattern. -/
def plusK {α : Type} (p : Char → Bool) : Str → Str → (Str → Str → Option α) → Option α
  | _, [], _ => none
  | acc, c :: t, k =>
    if p c then
      match plusK p (acc ++ [c]) t k with
      | some r => some r
      | none => k (acc ++ [c]) t
    else none

/-- The backtracking matcher, anchored at the start of the input. -/
def Regex.matchK {α : Type} : Regex → Str → Str → (Str → Str → Option α) → Option α
  | .atom _, _, [], _ => none
  | .atom p, acc, c :: t, k => if p c then k (acc ++ [c]) t else none
  | .seq r s, acc, inp, k => Regex.matchK r acc inp (fun acc1 rest => Regex.matchK s acc1 rest k)
  | .plus p, acc, inp, k => plusK p acc inp k

/-- The first match that starts at the head of the input: the matched text
(`match[0]`) and what follows it. -/
def Regex.matchAt (re : Regex) (inp : Str) : Option (Str × Str) :=
  re.matchK [] inp (fun m rest => some (m, rest))

/-- A literal character. -/
def lit (c : Char) : Regex := .atom (fun x => x == c)

/-- The pattern of line 208, `\${2}[\s\S]+\${2}`: two dollars, one or more
characters of any kind, two dollars. -/
def blockRe : Regex :=
  .seq (lit '$') (.seq (lit '$')
    (.seq (.plus (fun c => isSpace c || !isSpace c)) (.seq (lit '$') (lit '$'))))

/-- The pattern of line 209, `\$\S[^\n]+\S\$`. -/
def inlineRe : Regex :=
  .seq (lit '$') (.seq (.atom (fun c => !isSpace c))
    (.seq (.plus (fun c => !(c == '\n'))) (.seq (.atom (fun c => !isSpace c)) (lit '$'))))

/-- The loop of `boost::regex_replace` with a formatter functor: scan from the
left; where the pattern matches, emit what the formatter returns and go on
after the match; elsewhere copy one character.  `fuel` bounds the number of
steps; every match consumes at least one character. -/
def regex_replace_loop {σ : Type} (re : Regex) (fmt : σ → Str → Str × σ) :
    Nat → Str → σ → Str × σ
  | 0, inp, st => (inp, st)
  | _ + 1, [], st => ([], st)
  | fuel + 1, c :: t, st =>
    match re.matchAt (c :: t) with
    | some (m, rest) =>
      let r := fmt st m
      let o := regex_replace_loop re fmt fuel rest r.2
      (r.1 ++ o.1, o.2)
    | none =>
      let o := regex_replace_loop re fmt fuel t st
      (c :: o.1, o.2)

/-- The call `boost::regex_replace(input, re, formatter)`. -/
def regex_replace {σ : Type} (re : Regex) (fmt : σ → Str → Str × σ) (inp : Str) (st : σ) :
    Str × σ :=
  regex_replace_loop re fmt inp.length inp st

/-! ## std::map and replace_all -/

/-- The order of `std::string`: lexicographic on the character codes. -/
def strLt : Str → Str → Bool
  | [], [] => false
  | [], _ :: _ => true
  | _ :: _, [] => false
  | a :: as, b :: bs =>
    if a.toNat < b.toNat then true
    else if b.toNat < a.toNat then false
    else strLt as bs

/-- A `std::map<std::string,std::string>`: its entries in key order. -/
abbrev StrMap := List (Str × Str)

/-- The member `std::map::insert`: a new key goes to its place in key order;
a key already present keeps its old value. -/
def StrMap.insert : StrMap → Str → Str → StrMap
  | [], k, v => [(k, v)]
  | (k1, v1) :: rest, k, v =>
    if strLt k k1 then (k, v) :: (k1, v1) :: rest
    else if strLt k1 k then (k1, v1) :: StrMap.insert rest k v
    else (k1, v1) :: rest

/-- When `search` starts the text, what follows it. -/
def stripPrefix : Str → Str → Option Str
  | [], s => some s
  | _ :: _, [] => none
  | a :: as, b :: bs => if a == b then stripPrefix as bs else none

/-- The loop of `boost::algorithm::replace_all`: every occurrence of `search`,
found from the left without overlap, is replaced by `format`; replaced text is
not scanned again.  An empty `search` finds nothing. -/
def replace_all_loop (search format : Str) : Nat → Str → Str
  | 0, inp => inp
  | _ + 1, [] => []
  | fuel + 1, c :: t =>
    if search.isEmpty then c :: t
    else
      match stripPrefix search (c :: t) with
      | some rest => format ++ replace_all_loop search format fuel rest
      | none => c :: replace_all_loop search format fuel t

/-- The call `boost::algorithm::replace_all(input, search, format)`. -/
def replace_all (inp search format : Str) : Str :=
  replace_all_loop search format inp.length inp

/-! ## MathFilter -/

/-- What `MathFilter` carries between its constructor and its destructor:
the member `mathBlocks_`, and how many UUIDs the generator has handed out. -/
structure MathFilter where
  mathBlocks_ : StrMap
  uuids : Nat
deriving DecidableEq, Repr

/-- The member `MathFilter::substitute` (lines 237-243): draw a UUID, record
`(guid, match[0])`, return the guid as the replacement. -/
def MathFilter.substitute (generateUuid : Nat → Str) (self : MathFilter) (match0 : Str) :
    Str × MathFilter :=
  let guid := generateUuid self.uuids
  (guid, { mathBlocks_ := self.mathBlocks_.insert guid match0, uuids := self.uuids + 1 })

/-- The member `MathFilter::filter` (lines 226-235). -/
def MathFilter.filter (generateUuid : Nat → Str) (re : Regex) (self : MathFilter) (input : Str) :
    Str × MathFilter :=
  regex_replace re (MathFilter.substitute generateUuid) input self

/-- The constructor (lines 205-210): the block pattern first, then the inline
pattern over the text the first scan produced. -/
def MathFilter.new (generateUuid : Nat → Str) (input : Str) : Str × MathFilter :=
  let r1 := MathFilter.filter generateUuid blockRe { mathBlocks_ := [], uuids := 0 } input
  MathFilter.filter generateUuid inlineRe r1.2 r1.1

/-- The member `MathFilter::restore` (lines 245-248). -/
def MathFilter.restore (htmlOutput : Str) (block : Str × Str) : Str :=
  replace_all htmlOutput block.1 block.2

/-- The destructor (lines 212-223): `restore` for every entry of
`mathBlocks_`, in map (key) order, on the output string. -/
def MathFilter.destroy (self : MathFilter) (htmlOutput : Str) : Str :=
  self.mathBlocks_.foldl MathFilter.restore htmlOutput

/-! ## renderMarkdown and markdownToHTML -/

/-- The callbacks and options a pass runs with: `sdhtml_toc_renderer`, or
`sdhtml_renderer` with a render mode. -/
inductive Renderer where
  | toc
  | html (renderMode : Nat)
deriving DecidableEq, Repr

/-- The value of type `Error` a call returns. -/
inductive Error where
  | Success
  | not_enough_memory
deriving DecidableEq, Repr

/-- The collaborators of the file. -/
structure Env where
  /-- The values of the `MKDEXT_*` constants. -/
  MKDEXT : MkdExt
  /-- The values of the `HTML_*` constants. -/
  HTML : HtmlMode
  /-- The result of the n-th call of `core::system::generateUuid(false)`. -/
  generateUuid : Nat → Str
  /-- Whether `SundownBuffer(input)` comes out allocated. -/
  inputBufferAllocated : Str → Bool
  /-- Whether `sd_markdown_new` succeeds for the pass. -/
  markdownAllocated : Renderer → Bool
  /-- Whether the smartypants buffer of the pass is allocated. -/
  smartyBufferAllocated : Renderer → Bool
  /-- The text `sd_markdown_render` leaves in the output buffer, from the
  extension mask, the nesting limit, the renderer and the input. -/
  sd_markdown_render : Nat → Nat → Renderer → Str → Str
  /-- The text `sdhtml_smartypants` leaves in its buffer. -/
  sdhtml_smartypants : Str → Str

/-- The constant `kMaxNesting`. -/
def kMaxNesting : Nat := 16

/-- The assignment `*pOutput = buffer.c_str()` (lines 192 and 196): the
`std::string` takes the characters of the buffer up to the first NUL. -/
def c_str (buffer : Str) : Str :=
  buffer.takeWhile (fun c => c != Char.ofNat 0)

/-- The function `allocationError` (lines 143-146); the error location is
left out. -/
def allocationError : Error := Error.not_enough_memory

/-- The function `renderMarkdown` (lines 148-200).  `*pOutput` is assigned on
the two success paths only, so the result is either an error or the new value
of `*pOutput`.  The smartypants pass reads the whole output buffer (data and
size); `*pOutput` is read back through `c_str()`. -/
def renderMarkdown (env : Env) (inputBuffer : Str) (extensions : Extensions) (smartypants : Bool)
    (renderer : Renderer) : Except Error Str :=
  let ext := mdExt env.MKDEXT extensions
  if !env.markdownAllocated renderer then .error allocationError
  else
    let outputBuffer := env.sd_markdown_render ext kMaxNesting renderer inputBuffer
    if smartypants then
      if !env.smartyBufferAllocated renderer then .error allocationError
      else .ok (c_str (env.sdhtml_smartypants outputBuffer))
    else .ok (c_str outputBuffer)

/-- The text appended around the table of contents (lines 324-328). -/
def tocContainer (tocOutput : Str) : Str :=
  "<div id=\"toc\">\n".toList ++ "<div id=\"toc_header\">Table of Contents</div>\n".toList
    ++ tocOutput ++ "</div>\n".toList ++ "\n".toList

/-- Lines 304-368 of `markdownToHTML`: what runs between the construction and
the destruction of the math filter.  Returns the error value and the state of
`*pHTMLOutput` at the return statement. -/
def markdownToHTMLPasses (env : Env) (input : Str) (extensions : Extensions)
    (options : HTMLOptions) (htmlOutput : Str) : Error × Str :=
  if !env.inputBufferAllocated input then (allocationError, htmlOutput)
  else
    let afterToc : Except Error Str :=
      if options.toc then
        match renderMarkdown env input extensions options.smartypants Renderer.toc with
        | .error e => .error e
        | .ok tocOutput => .ok (htmlOutput ++ tocContainer tocOutput)
      else .ok htmlOutput
    match afterToc with
    | .error e => (e, htmlOutput)
    | .ok html1 =>
      let mode := htmlRenderMode env.HTML options
      match renderMarkdown env input extensions options.smartypants (Renderer.html mode) with
      | .error e => (e, html1)
      | .ok output => (Error.Success, html1 ++ output)

/-- The function `markdownToHTML(markdownInput, extensions, options,
pHTMLOutput)` (lines 293-369).  `htmlOutput` is `*pHTMLOutput` before the
call; the result is the returned error value and `*pHTMLOutput` after the
call.  With `ignoreMath` the filter is destroyed on every return path. -/
def markdownToHTML (env : Env) (markdownInput : Str) (extensions : Extensions)
    (options : HTMLOptions) (htmlOutput : Str) : Error × Str :=
  if extensions.ignoreMath then
    let f := MathFilter.new env.generateUuid markdownInput
    let r := markdownToHTMLPasses env f.1 extensions options htmlOutput
    (r.1, f.2.destroy r.2)
  else
    markdownToHTMLPasses env markdownInput extensions options htmlOutput

/-- The text the passes run on: the input, with the math regions replaced
when `ignoreMath` is set. -/
def protectedInput (env : Env) (markdownInput : Str) (extensions : Extensions) : Str :=
  if extensions.ignoreMath then (MathFilter.new env.generateUuid markdownInput).1
  else markdownInput

/-- What the end of the call does to the output string: the destructor of the
math filter when `ignoreMath` is set, nothing otherwise. -/
def restoreMath (env : Env) (markdownInput : Str) (extensions : Extensions) (htmlOutput : Str) :
    Str :=
  if extensions.ignoreMath then (MathFilter.new env.generateUuid markdownInput).2.destroy htmlOutput
  else htmlOutput

/-! ## Notions used in the statements -/

/-- The two opening lines of the TOC container (lines 324-325). -/
def tocOpen : Str :=
  "<div id=\"toc\">\n<div id=\"toc_header\">Table of Contents</div>\n".toList

/-- The closing lines of the TOC container (lines 327-328). -/
def tocClose : Str := "</div>\n\n".toList

/-- A hexadecimal digit. -/
def isHexDigit (c : Char) : Bool :=
  (48 ≤ c.toNat && c.toNat ≤ 57) || (97 ≤ c.toNat && c.toNat ≤ 102)
    || (65 ≤ c.toNat && c.toNat ≤ 70)

/-- The shape of what `generateUuid(false)` returns: 32 hexadecimal digits,
no dashes. -/
def isUuid (s : Str) : Bool :=
  s.length == 32 && s.all isHexDigit

/-- The table of the math filter of the call: empty without `ignoreMath`. -/
def mathTable (env : Env) (markdownInput : Str) (extensions : Extensions) : StrMap :=
  if extensions.ignoreMath then (MathFilter.new env.generateUuid markdownInput).2.mathBlocks_
  else []

/-- A fixed text in which no run of `n` hexadecimal digits starts: from every
position on, a character that is no hexadecimal digit comes within the next
`n` characters of the fixed text. -/
def guarded (n : Nat) (fixed : Str) : Bool :=
  fixed.tails.all (fun t => t.isEmpty || (t.take n).any (fun c => !isHexDigit c))

/-- The language of a pattern: the texts it can match. -/
def Regex.Matches : Regex → Str → Prop
  | .atom p, m => ∃ c, m = [c] ∧ p c = true
  | .seq r s, m => ∃ m1 m2, m = m1 ++ m2 ∧ Regex.Matches r m1 ∧ Regex.Matches s m2
  | .plus p, m => m ≠ [] ∧ ∀ c ∈ m, p c = true

/-- The pattern matches at no position of the text. -/
def NoMatch (re : Regex) (inp : Str) : Prop :=
  ∀ pre s, inp = pre ++ s → re.matchAt s = none

/-- Whether a pattern matches somewhere is decided by trying every position. -/
instance NoMatch.decidable (re : Regex) (inp : Str) : Decidable (NoMatch re inp) :=
  decidable_of_iff (∀ s ∈ inp.tails, re.matchAt s = none)
    ⟨fun h pre s hs => h s ((List.mem_tails s inp).2 ⟨pre, hs.symm⟩),
     fun h s hs => by
      obtain ⟨pre, hpre⟩ := (List.mem_tails s inp).1 hs
      exact h pre s hpre.symm⟩

/-- What closes a block match: the text goes on with two dollars. -/
def closeBlock (acc rest : Str) : Option (Str × Str) :=
  Regex.matchK (.seq (lit '$') (lit '$')) acc rest (fun m r => some (m, r))

/-- What closes an inline match: a non-space character and a dollar. -/
def closeInline (acc rest : Str) : Option (Str × Str) :=
  Regex.matchK (.seq (.atom (fun c => !isSpace c)) (lit '$')) acc rest (fun m r => some (m, r))

/-! ## A sample environment -/

/-- Sample bit positions for the `MKDEXT_*` constants, one bit each. -/
def sampleMkdExtPos : MkdExt :=
  { NO_INTRA_EMPHASIS := 0, TABLES := 1, FENCED_CODE := 2, AUTOLINK := 3, STRIKETHROUGH := 4,
    LAX_SPACING := 8, SPACE_HEADERS := 6, SUPERSCRIPT := 7 }

/-- Sample bit positions for the `HTML_*` constants, one bit each. -/
def sampleHtmlPos : HtmlMode :=
  { USE_XHTML := 8, HARD_WRAP := 7, TOC := 6, SAFELINK := 5, SKIP_HTML := 0, SKIP_STYLE := 1,
    SKIP_IMAGES := 2, SKIP_LINKS := 3, ESCAPE := 9 }

/-- A sample UUID sequence: 32 hexadecimal digits for the first two calls,
longer and longer strings after that, so that no two calls agree. -/
def sampleUuid : Nat → Str
  | 0 => "1b4e28ba2fa111d2883f0016d3cca427".toList
  | 1 => "6fa459eaee8a3ca4894edb77e160355e".toList
  | n + 2 => List.replicate (n + 33) 'f'

/-- A sample renderer: the body renderer wraps its input in one paragraph,
the table-of-contents renderer returns an empty list. -/
def sampleRender (_ext _maxNesting : Nat) (renderer : Renderer) (input : Str) : Str :=
  match renderer with
  | Renderer.toc => "<ul>\n</ul>\n".toList
  | Renderer.html _ => "<p>".toList ++ input ++ "</p>\n".toList

/-- A second sample renderer, whose table of contents shows the text it is
given. -/
def sampleRenderEcho (_ext _maxNesting : Nat) (renderer : Renderer) (input : Str) : Str :=
  match renderer with
  | Renderer.toc => "<ul>\n<li>".toList ++ input ++ "</li>\n</ul>\n".toList
  | Renderer.html _ => "<p>".toList ++ input ++ "</p>\n".toList

/-- A sample typography pass: two hyphens become a dash entity. -/
def sampleSmartypants (s : Str) : Str :=
  replace_all s "--".toList "&mdash;".toList

/-- A sample environment in which every allocation succeeds. -/
def sampleEnv : Env :=
  { MKDEXT := sampleMkdExtPos.shl
    HTML := sampleHtmlPos.shl
    generateUuid := sampleUuid
    inputBufferAllocated := fun _ => true
    markdownAllocated := fun _ => true
    smartyBufferAllocated := fun _ => true
    sd_markdown_render := sampleRender
    sdhtml_smartypants := sampleSmartypants }

/-- The sample environment with the parser of the body pass failing to
allocate. -/
def sampleEnvBodyFails : Env :=
  { sampleEnv with markdownAllocated := fun r => decide (r = Renderer.toc) }

/-- The sample environment with the first two UUIDs drawn in the other
order. -/
def sampleEnvSwapped : Env :=
  { sampleEnv with
    generateUuid := fun n => if n = 0 then sampleUuid 1 else if n = 1 then sampleUuid 0
      else sampleUuid n }

/-- The sample environment with the second sample renderer. -/
def sampleEnvEcho : Env :=
  { sampleEnv with sd_markdown_render := sampleRenderEcho }

/-- No extension enabled. -/
def noExtensions : Extensions :=
  { noIntraEmphasis := false, tables := false, fencedCode := false, autolink := false,
    strikethrough := false, laxSpacing := false, spaceHeaders := false, superscript := false,
    ignoreMath := false }

/-- No option enabled. -/
def noOptions : HTMLOptions :=
  { useXHTML := false, hardWrap := false, smartypants := false, safelink := false, toc := false,
    skipHTML := false, skipStyle := false, skipImages := false, skipLinks := false,
    escape := false }

/-! ## Lemmas on the matcher -/

theorem Regex.Matches.ne_nil {re : Regex} {m : Str} (h : re.Matches m) : m ≠ [] := by
  induction re generalizing m with
  | atom p => obtain ⟨c, rfl, _⟩ := h; simp
  | seq r s ihr _ =>
    obtain ⟨m1, m2, rfl, h1, _⟩ := h
    have := ihr h1
    simp [this]
  | plus p => exact h.1

theorem plusK_sound {α : Type} (p : Char → Bool) (k : Str → Str → Option α) :
    ∀ (inp acc : Str) (x : α), plusK p acc inp k = some x →
      ∃ m rest, m ≠ [] ∧ (∀ c ∈ m, p c = true) ∧ inp = m ++ rest ∧ k (acc ++ m) rest = some x := by
  intro inp
  induction inp with
  | nil => intro acc x h; simp [plusK] at h
  | cons c t ih =>
    intro acc x h
    unfold plusK at h
    by_cases hp : p c = true
    · simp only [hp, if_true] at h
      cases hrec : plusK p (acc ++ [c]) t k with
      | some r =>
        rw [hrec] at h
        obtain ⟨m, rest, _, hall, ht, hk⟩ := ih (acc ++ [c]) r hrec
        refine ⟨c :: m, rest, by simp, ?_, by simp [ht], ?_⟩
        · intro d hd
          rcases List.mem_cons.1 hd with rfl | hd
          · exact hp
          · exact hall d hd
        · simpa using hk.trans (by simpa using h)
      | none =>
        rw [hrec] at h
        exact ⟨[c], t, by simp, by simpa using hp, by simp, h⟩
    · simp [hp] at h

/-- Greedy choice: the longest run after which the rest of the pattern
succeeds is the one taken. -/
theorem plusK_first {α : Type} (p : Char → Bool) (k : Str → Str → Option α) (x : α) :
    ∀ (m acc rest : Str), m ≠ [] → (∀ c ∈ m, p c = true) → k (acc ++ m) rest = some x →
      (∀ m2 r2, m2 ≠ [] → rest = m2 ++ r2 → (∀ c ∈ m2, p c = true) → k (acc ++ m ++ m2) r2 = none) →
      plusK p acc (m ++ rest) k = some x := by
  intro m
  induction m with
  | nil => intro acc rest h; exact absurd rfl h
  | cons c m ih =>
    intro acc rest _ hall hk hlater
    have hp : p c = true := hall c (by simp)
    show plusK p acc (c :: (m ++ rest)) k = some x
    unfold plusK
    simp only [hp, if_true]
    by_cases hm : m = []
    · subst hm
      have hnone : plusK p (acc ++ [c]) rest k = none := by
        cases hrec : plusK p (acc ++ [c]) rest k with
        | none => rfl
        | some y =>
          obtain ⟨m2, r2, hne, hall2, hsplit, hk2⟩ := plusK_sound p k rest (acc ++ [c]) y hrec
          have := hlater m2 r2 hne hsplit hall2
          rw [this] at hk2
          exact absurd hk2 (by simp)
      simp only [List.nil_append, hnone]
      exact hk
    · have := ih (acc ++ [c]) rest hm (fun d hd => hall d (by simp [hd]))
        (by simpa using hk) (fun m2 r2 hne hs ha => by simpa using hlater m2 r2 hne hs ha)
      rw [this]

theorem Regex.matchK_sound {α : Type} (re : Regex) :
    ∀ (k : Str → Str → Option α) (acc inp : Str) (x : α), re.matchK acc inp k = some x →
      ∃ m rest, re.Matches m ∧ inp = m ++ rest ∧ k (acc ++ m) rest = some x := by
  induction re with
  | atom p =>
    intro k acc inp x h
    cases inp with
    | nil => simp [Regex.matchK] at h
    | cons c t =>
      by_cases hp : p c = true
      · simp only [Regex.matchK, hp, if_true] at h
        exact ⟨[c], t, ⟨c, rfl, hp⟩, by simp, h⟩
      · simp [Regex.matchK, hp] at h
  | seq r s ihr ihs =>
    intro k acc inp x h
    simp only [Regex.matchK] at h
    obtain ⟨m1, rest1, hm1, hinp, h1⟩ := ihr _ acc inp x h
    obtain ⟨m2, rest2, hm2, hrest, h2⟩ := ihs k (acc ++ m1) rest1 x h1
    exact ⟨m1 ++ m2, rest2, ⟨m1, m2, rfl, hm1, hm2⟩, by simp [hinp, hrest], by simpa using h2⟩
  | plus p =>
    intro k acc inp x h
    simp only [Regex.matchK] at h
    obtain ⟨m, rest, hne, hall, hinp, hk⟩ := plusK_sound p k inp acc x h
    exact ⟨m, rest, ⟨hne, hall⟩, hinp, hk⟩

theorem Regex.matchAt_sound {re : Regex} {inp m rest : Str} (h : re.matchAt inp = some (m, rest)) :
    re.Matches m ∧ inp = m ++ rest := by
  obtain ⟨m1, rest1, hm, hinp, hk⟩ := Regex.matchK_sound re _ [] inp (m, rest) h
  simp only [List.nil_append, Option.some.injEq, Prod.mk.injEq] at hk
  obtain ⟨rfl, rfl⟩ := hk
  exact ⟨hm, hinp⟩

theorem Regex.matchAt_length_lt {re : Regex} {inp m rest : Str}
    (h : re.matchAt inp = some (m, rest)) : rest.length < inp.length := by
  obtain ⟨hm, rfl⟩ := Regex.matchAt_sound h
  have := List.length_pos.2 hm.ne_nil
  simp only [List.length_append]
  omega

/-! ## regex_replace: enough fuel, and the equations of the scan -/

theorem regex_replace_loop_fuel {σ : Type} (re : Regex) (fmt : σ → Str → Str × σ) :
    ∀ (f1 f2 : Nat) (inp : Str) (st : σ), inp.length ≤ f1 → inp.length ≤ f2 →
      regex_replace_loop re fmt f1 inp st = regex_replace_loop re fmt f2 inp st := by
  intro f1
  induction f1 with
  | zero =>
    intro f2 inp st h1 _
    have : inp = [] := List.length_eq_zero.1 (Nat.le_zero.1 h1)
    subst this
    cases f2 <;> simp [regex_replace_loop]
  | succ n ih =>
    intro f2 inp st h1 h2
    cases inp with
    | nil => cases f2 <;> simp [regex_replace_loop]
    | cons c t =>
      cases f2 with
      | zero => simp at h2
      | succ n2 =>
        simp only [List.length_cons, Nat.add_le_add_iff_right] at h1 h2
        simp only [regex_replace_loop]
        cases hm : re.matchAt (c :: t) with
        | none => simp only [ih n2 t st h1 h2]
        | some mr =>
          obtain ⟨m, rest⟩ := mr
          have hlt := Regex.matchAt_length_lt hm
          simp only [List.length_cons] at hlt
          simp only [ih n2 rest (fmt st m).2 (by omega) (by omega)]

/-- The fuel `regex_replace` starts with is enough: more fuel gives the same result. -/
theorem regex_replace_loop_eq {σ : Type} (re : Regex) (fmt : σ → Str → Str × σ)
    (fuel : Nat) (inp : Str) (st : σ) (h : inp.length ≤ fuel) :
    regex_replace_loop re fmt fuel inp st = regex_replace re fmt inp st :=
  regex_replace_loop_fuel re fmt fuel inp.length inp st h (Nat.le_refl _)

theorem regex_replace_nil {σ : Type} (re : Regex) (fmt : σ → Str → Str × σ) (st : σ) :
    regex_replace re fmt [] st = ([], st) := rfl

theorem regex_replace_cons_none {σ : Type} (re : Regex) (fmt : σ → Str → Str × σ) (st : σ)
    (c : Char) (t : Str) (h : re.matchAt (c :: t) = none) :
    regex_replace re fmt (c :: t) st
      = (c :: (regex_replace re fmt t st).1, (regex_replace re fmt t st).2) := by
  simp only [regex_replace, List.length_cons, regex_replace_loop, h]

theorem regex_replace_cons_some {σ : Type} (re : Regex) (fmt : σ → Str → Str × σ) (st : σ)
    (c : Char) (t m rest : Str) (h : re.matchAt (c :: t) = some (m, rest)) :
    regex_replace re fmt (c :: t) st
      = ((fmt st m).1 ++ (regex_replace re fmt rest (fmt st m).2).1,
         (regex_replace re fmt rest (fmt st m).2).2) := by
  have hlt := Regex.matchAt_length_lt h
  simp only [List.length_cons] at hlt
  simp only [regex_replace, List.length_cons, regex_replace_loop, h]
  rw [regex_replace_loop_eq re fmt t.length rest _ (by omega)]
  rfl

theorem Regex.matchAt_nil (re : Regex) : re.matchAt [] = none := by
  cases h : re.matchAt [] with
  | none => rfl
  | some mr =>
    obtain ⟨m, rest⟩ := mr
    have := Regex.matchAt_length_lt h
    simp at this

theorem NoMatch_nil (re : Regex) : NoMatch re [] := by
  intro pre s h
  have : s = [] := by
    have := congrArg List.length h
    simp only [List.length_nil, List.length_append] at this
    exact List.length_eq_zero.1 (by omega)
  subst this
  exact re.matchAt_nil

theorem NoMatch_cons {re : Regex} {c : Char} {t : Str} :
    NoMatch re (c :: t) ↔ re.matchAt (c :: t) = none ∧ NoMatch re t := by
  constructor
  · intro h
    exact ⟨h [] (c :: t) rfl, fun pre s hs => h (c :: pre) s (by simp [hs])⟩
  · rintro ⟨h0, ht⟩ pre s hs
    cases pre with
    | nil => simp only [List.nil_append] at hs; subst hs; exact h0
    | cons d pre =>
      simp only [List.cons_append, List.cons.injEq] at hs
      exact ht pre s hs.2

/-- Where the pattern matches nowhere, `regex_replace` returns the text as it
is and never calls the formatter. -/
theorem regex_replace_of_NoMatch {σ : Type} (re : Regex) (fmt : σ → Str → Str × σ) (st : σ) :
    ∀ inp : Str, NoMatch re inp → regex_replace re fmt inp st = (inp, st) := by
  intro inp
  induction inp with
  | nil => intro _; rfl
  | cons c t ih =>
    intro h
    obtain ⟨h0, ht⟩ := NoMatch_cons.1 h
    rw [regex_replace_cons_none re fmt st c t h0, ih ht]

/-- A stretch of text in front of which the pattern never matches is copied. -/
theorem regex_replace_append {σ : Type} (re : Regex) (fmt : σ → Str → Str × σ) (st : σ) (rest : Str) :
    ∀ pre : Str, (∀ a c b, pre = a ++ c :: b → re.matchAt (c :: b ++ rest) = none) →
      regex_replace re fmt (pre ++ rest) st
        = (pre ++ (regex_replace re fmt rest st).1, (regex_replace re fmt rest st).2) := by
  intro pre
  induction pre with
  | nil => intro _; rfl
  | cons c t ih =>
    intro h
    have h0 := h [] c t rfl
    rw [List.cons_append, regex_replace_cons_none re fmt st c (t ++ rest) h0,
      ih (fun a d b hab => h (c :: a) d b (by simp [hab]))]
    rfl

/-! ## replace_all: enough fuel -/

theorem stripPrefix_length {search : Str} :
    ∀ {inp rest : Str}, stripPrefix search inp = some rest →
      rest.length + search.length = inp.length := by
  induction search with
  | nil => intro inp rest h; simp [stripPrefix] at h; simp [h]
  | cons a as ih =>
    intro inp rest h
    cases inp with
    | nil => simp [stripPrefix] at h
    | cons b bs =>
      by_cases hab : a = b
      · simp only [stripPrefix, hab, beq_self_eq_true, if_true] at h
        have := ih h
        simp only [List.length_cons]
        omega
      · simp [stripPrefix, hab] at h

theorem replace_all_loop_fuel (search format : Str) :
    ∀ (f1 f2 : Nat) (inp : Str), inp.length ≤ f1 → inp.length ≤ f2 →
      replace_all_loop search format f1 inp = replace_all_loop search format f2 inp := by
  intro f1
  induction f1 with
  | zero =>
    intro f2 inp h1 _
    have : inp = [] := List.length_eq_zero.1 (Nat.le_zero.1 h1)
    subst this
    cases f2 <;> simp [replace_all_loop]
  | succ n ih =>
    intro f2 inp h1 h2
    cases inp with
    | nil => cases f2 <;> simp [replace_all_loop]
    | cons c t =>
      cases f2 with
      | zero => simp at h2
      | succ n2 =>
        simp only [List.length_cons, Nat.add_le_add_iff_right] at h1 h2
        simp only [replace_all_loop]
        cases search with
        | nil => rfl
        | cons a as =>
          simp only [List.isEmpty_cons, Bool.false_eq_true, if_false]
          cases hm : stripPrefix (a :: as) (c :: t) with
          | none => simp only [ih n2 t h1 h2]
          | some rest =>
            have hlen := stripPrefix_length hm
            simp only [List.length_cons] at hlen
            simp only [ih n2 rest (by omega) (by omega)]

/-- The fuel `replace_all` starts with is enough: more fuel gives the same result. -/
theorem replace_all_loop_eq (search format : Str) (fuel : Nat) (inp : Str)
    (h : inp.length ≤ fuel) :
    replace_all_loop search format fuel inp = replace_all inp search format :=
  replace_all_loop_fuel search format fuel inp.length inp h (Nat.le_refl _)

/-! ## The two patterns -/

theorem closeBlock_eq_some {acc rest : Str} {x : Str × Str} (h : closeBlock acc rest = some x) :
    ∃ r, rest = '$' :: '$' :: r ∧ x = (acc ++ ['$', '$'], r) := by
  obtain ⟨m, r, hm, hrest, hk⟩ := Regex.matchK_sound _ _ acc rest x h
  obtain ⟨m1, m2, rfl, ⟨c1, rfl, h1⟩, ⟨c2, rfl, h2⟩⟩ := hm
  simp only [beq_iff_eq] at h1 h2
  subst h1 h2
  refine ⟨r, by simpa using hrest, ?_⟩
  simpa using hk.symm

theorem closeBlock_dollars (acc r : Str) :
    closeBlock acc ('$' :: '$' :: r) = some (acc ++ ['$', '$'], r) := by
  simp [closeBlock, Regex.matchK, lit]

theorem closeInline_eq_some {acc rest : Str} {x : Str × Str} (h : closeInline acc rest = some x) :
    ∃ Y r, isSpace Y = false ∧ rest = Y :: '$' :: r ∧ x = (acc ++ [Y, '$'], r) := by
  obtain ⟨m, r, hm, hrest, hk⟩ := Regex.matchK_sound _ _ acc rest x h
  obtain ⟨m1, m2, rfl, ⟨c1, rfl, h1⟩, ⟨c2, rfl, h2⟩⟩ := hm
  simp only [beq_iff_eq, Bool.not_eq_true'] at h1 h2
  subst h2
  refine ⟨c1, r, h1, by simpa using hrest, ?_⟩
  simpa using hk.symm

theorem closeInline_char (acc r : Str) (Y : Char) (hY : isSpace Y = false) :
    closeInline acc (Y :: '$' :: r) = some (acc ++ [Y, '$'], r) := by
  simp [closeInline, Regex.matchK, lit, hY]

theorem blockRe_matchAt (c1 c2 : Char) (t : Str) :
    blockRe.matchAt (c1 :: c2 :: t)
      = if c1 = '$' ∧ c2 = '$' then plusK (fun c => isSpace c || !isSpace c) [c1, c2] t closeBlock
        else none := by
  by_cases h1 : c1 = '$'
  · by_cases h2 : c2 = '$'
    · subst h1 h2
      simp only [and_self, if_true]
      rfl
    · simp [Regex.matchAt, blockRe, Regex.matchK, lit, h1, h2]
  · simp [Regex.matchAt, blockRe, Regex.matchK, lit, h1]

theorem inlineRe_matchAt (c1 c2 : Char) (t : Str) :
    inlineRe.matchAt (c1 :: c2 :: t)
      = if c1 = '$' ∧ isSpace c2 = false then plusK (fun c => !(c == '\n')) [c1, c2] t closeInline
        else none := by
  by_cases h1 : c1 = '$'
  · by_cases h2 : isSpace c2 = false
    · subst h1
      simp only [h2, and_self, if_true]
      simp only [Regex.matchAt, inlineRe, Regex.matchK, lit, beq_self_eq_true, if_true, h2,
        Bool.not_false, List.nil_append, List.singleton_append]
      rfl
    · simp [Regex.matchAt, inlineRe, Regex.matchK, lit, h1, h2]
  · simp [Regex.matchAt, inlineRe, Regex.matchK, lit, h1]

theorem blockRe_matchAt_single (c : Char) : blockRe.matchAt [c] = none := by
  by_cases h1 : c = '$' <;> simp [Regex.matchAt, blockRe, Regex.matchK, lit, h1]

theorem inlineRe_matchAt_single (c : Char) : inlineRe.matchAt [c] = none := by
  by_cases h1 : c = '$' <;> simp [Regex.matchAt, inlineRe, Regex.matchK, lit, h1]

/-- Both patterns start with a dollar. -/
theorem blockRe_matchAt_head {c : Char} (t : Str) (h : c ≠ '$') : blockRe.matchAt (c :: t) = none := by
  cases t with
  | nil => exact blockRe_matchAt_single c
  | cons d t => simp [blockRe_matchAt, h]

theorem inlineRe_matchAt_head {c : Char} (t : Str) (h : c ≠ '$') : inlineRe.matchAt (c :: t) = none := by
  cases t with
  | nil => exact inlineRe_matchAt_single c
  | cons d t => simp [inlineRe_matchAt, h]

/-- A block match starts with two dollars, holds at least one character and
ends with two dollars. -/
theorem blockRe_matchAt_some {s m rest : Str} (h : blockRe.matchAt s = some (m, rest)) :
    ∃ mid, mid ≠ [] ∧ m = '$' :: '$' :: mid ++ ['$', '$'] ∧ s = m ++ rest := by
  obtain ⟨hm, hs⟩ := Regex.matchAt_sound h
  obtain ⟨m1, m2, rfl, ⟨c1, rfl, h1⟩, m3, m4, rfl, ⟨c2, rfl, h2⟩, m5, m6, rfl, ⟨hne, _⟩,
    m7, m8, rfl, ⟨c3, rfl, h3⟩, ⟨c4, rfl, h4⟩⟩ := hm
  simp only [beq_iff_eq] at h1 h2 h3 h4
  subst h1 h2 h3 h4
  exact ⟨m5, hne, by simp, hs⟩

/-- An inline match is a dollar, a non-space character, at least one
character that is no newline, a non-space character, a dollar. -/
theorem inlineRe_matchAt_some {s m rest : Str} (h : inlineRe.matchAt s = some (m, rest)) :
    ∃ X mid Y, isSpace X = false ∧ isSpace Y = false ∧ mid ≠ [] ∧ (∀ c ∈ mid, c ≠ '\n') ∧
      m = '$' :: X :: mid ++ [Y, '$'] ∧ s = m ++ rest := by
  obtain ⟨hm, hs⟩ := Regex.matchAt_sound h
  obtain ⟨m1, m2, rfl, ⟨c1, rfl, h1⟩, m3, m4, rfl, ⟨c2, rfl, h2⟩, m5, m6, rfl, ⟨hne, hall⟩,
    m7, m8, rfl, ⟨c3, rfl, h3⟩, ⟨c4, rfl, h4⟩⟩ := hm
  simp only [beq_iff_eq, Bool.not_eq_true'] at h1 h2 h3 h4
  subst h1 h4
  refine ⟨c2, m5, c3, h2, h3, hne, ?_, by simp, hs⟩
  intro c hc hcn
  have := hall c hc
  simp [hcn] at this

/-- The block pattern is greedy: from two dollars it runs to the last pair
of dollars of the text. -/
theorem blockRe_matchAt_greedy (mid post : Str) (hmid : mid ≠ [])
    (hlast : ¬ ['$', '$'] <:+: '$' :: post) :
    blockRe.matchAt ('$' :: '$' :: (mid ++ '$' :: '$' :: post))
      = some ('$' :: '$' :: (mid ++ ['$', '$']), post) := by
  rw [blockRe_matchAt]
  simp only [and_self, if_true]
  have h := plusK_first (fun c => isSpace c || !isSpace c) closeBlock
    ('$' :: '$' :: (mid ++ ['$', '$']), post) mid ['$', '$'] ('$' :: '$' :: post) hmid
    (by intro c _; simp)
    (by simpa using closeBlock_dollars (['$', '$'] ++ mid) post)
    (by
      intro m2 r2 hne hsplit _
      cases hc : closeBlock (['$', '$'] ++ mid ++ m2) r2 with
      | none => rfl
      | some x =>
        exfalso
        obtain ⟨r, hr, _⟩ := closeBlock_eq_some hc
        subst hr
        cases m2 with
        | nil => exact hne rfl
        | cons d m2 =>
          simp only [List.cons_append, List.cons.injEq] at hsplit
          apply hlast
          rw [hsplit.2]
          exact ⟨m2, r, by simp⟩)
  exact h

/-- The inline pattern takes the whole of a dollar, a non-space character, a
non-empty run without newline, a non-space character and a dollar, when no
dollar follows. -/
theorem inlineRe_matchAt_whole (X Y : Char) (r post : Str) (hX : isSpace X = false)
    (hY : isSpace Y = false) (hr : r ≠ []) (hnl : ∀ c ∈ r, c ≠ '\n') (hpost : '$' ∉ post) :
    inlineRe.matchAt ('$' :: X :: (r ++ Y :: '$' :: post))
      = some ('$' :: X :: (r ++ [Y, '$']), post) := by
  rw [inlineRe_matchAt]
  simp only [hX, and_self, if_true]
  have h := plusK_first (fun c => !(c == '\n')) closeInline
    ('$' :: X :: (r ++ [Y, '$']), post) r ['$', X] (Y :: '$' :: post) hr
    (by intro c hc; simpa using hnl c hc)
    (by simpa using closeInline_char (['$', X] ++ r) post Y hY)
    (by
      intro m2 r2 hne hsplit _
      cases hc : closeInline (['$', X] ++ r ++ m2) r2 with
      | none => rfl
      | some x =>
        exfalso
        obtain ⟨Y2, r3, _, hr3, _⟩ := closeInline_eq_some hc
        subst hr3
        cases m2 with
        | nil => exact hne rfl
        | cons d m2 =>
          simp only [List.cons_append, List.cons.injEq] at hsplit
          have h2 := hsplit.2
          cases m2 with
          | nil =>
            simp only [List.nil_append, List.cons.injEq] at h2
            exact hpost (by rw [h2.2]; simp)
          | cons e m2 =>
            simp only [List.cons_append, List.cons.injEq] at h2
            exact hpost (by rw [h2.2]; simp))
  exact h

/-- A text without a dollar holds no match of either pattern. -/
theorem NoMatch_of_no_dollar (inp : Str) (h : '$' ∉ inp) :
    NoMatch blockRe inp ∧ NoMatch inlineRe inp := by
  induction inp with
  | nil => exact ⟨NoMatch_nil _, NoMatch_nil _⟩
  | cons c t ih =>
    have hc : c ≠ '$' := fun hc => h (by simp [hc])
    have ht := ih (fun ht => h (by simp [ht]))
    exact ⟨NoMatch_cons.2 ⟨blockRe_matchAt_head t hc, ht.1⟩,
      NoMatch_cons.2 ⟨inlineRe_matchAt_head t hc, ht.2⟩⟩

/-- Text without a dollar in front of a text without match has no match. -/
theorem NoMatch_block_append (pre s : Str) (h : '$' ∉ pre) (hs : NoMatch blockRe s) :
    NoMatch blockRe (pre ++ s) := by
  induction pre with
  | nil => exact hs
  | cons c t ih =>
    exact NoMatch_cons.2 ⟨blockRe_matchAt_head _ (fun hc => h (by simp [hc])),
      ih (fun ht => h (by simp [ht]))⟩

theorem NoMatch_inline_append (pre s : Str) (h : '$' ∉ pre) (hs : NoMatch inlineRe s) :
    NoMatch inlineRe (pre ++ s) := by
  induction pre with
  | nil => exact hs
  | cons c t ih =>
    exact NoMatch_cons.2 ⟨inlineRe_matchAt_head _ (fun hc => h (by simp [hc])),
      ih (fun ht => h (by simp [ht]))⟩

/-- A text without two dollars in a row holds no block match. -/
theorem NoMatch_block_of_no_pair (inp : Str) (h : ¬ ['$', '$'] <:+: inp) : NoMatch blockRe inp := by
  intro pre s hs
  cases hm : blockRe.matchAt s with
  | none => rfl
  | some mr =>
    exfalso
    obtain ⟨m, rest⟩ := mr
    obtain ⟨mid, _, hmm, hsm⟩ := blockRe_matchAt_some hm
    apply h
    refine ⟨pre, mid ++ ['$', '$'] ++ rest, ?_⟩
    rw [hs, hsm, hmm]
    simp

theorem isSpace_dollar : isSpace '$' = false := by decide

theorem ne_dollar_of_isSpace {w : Char} (h : isSpace w = true) : w ≠ '$' := by
  intro hw
  rw [hw, isSpace_dollar] at h
  exact absurd h (by simp)

theorem blockRe_matchAt_dollar_ne {d : Char} (t : Str) (h : d ≠ '$') :
    blockRe.matchAt ('$' :: d :: t) = none := by
  simp [blockRe_matchAt, h]

/-- A single dollar at the end of a text starts no match. -/
theorem NoMatch_dollar_no_dollar (c : Str) (hc : '$' ∉ c) :
    NoMatch blockRe ('$' :: c) ∧ NoMatch inlineRe ('$' :: c) := by
  have hnc := NoMatch_of_no_dollar c hc
  constructor
  · refine NoMatch_cons.2 ⟨?_, hnc.1⟩
    cases c with
    | nil => exact blockRe_matchAt_single _
    | cons d c => exact blockRe_matchAt_dollar_ne c (fun hd => hc (by simp [hd]))
  · refine NoMatch_cons.2 ⟨?_, hnc.2⟩
    cases hm : inlineRe.matchAt ('$' :: c) with
    | none => rfl
    | some mr =>
      exfalso
      obtain ⟨m, rest⟩ := mr
      obtain ⟨X, mid, Y, _, _, _, _, hmm, hsm⟩ := inlineRe_matchAt_some hm
      rw [hmm] at hsm
      simp only [List.cons_append, List.cons.injEq, true_and] at hsm
      exact hc (by rw [hsm]; simp)

/-- The place of the only dollar of a text is determined. -/
theorem dollar_split_unique {u v u2 v2 : Str} (h : u ++ '$' :: v = u2 ++ '$' :: v2)
    (hu : '$' ∉ u) (hv : '$' ∉ v) : u = u2 ∧ v = v2 := by
  rcases List.append_eq_append_iff.1 h with ⟨a, h1, h2⟩ | ⟨a, h1, h2⟩
  · cases a with
    | nil => simp at h1 h2; exact ⟨h1.symm, h2⟩
    | cons x a =>
      simp only [List.cons_append, List.cons.injEq] at h2
      exact absurd (by rw [h2.2]; simp) hv
  · cases a with
    | nil => simp at h1 h2; exact ⟨h1, h2.symm⟩
    | cons x a =>
      simp only [List.cons_append, List.cons.injEq] at h2
      exact absurd (by rw [h1, ← h2.1]; simp) hu

/-- Two dollars with a space character right before the second one, and no
other dollar: neither pattern matches anywhere. -/
theorem NoMatch_space_before_second (a b c : Str) (w : Char) (ha : '$' ∉ a) (hb : '$' ∉ b)
    (hc : '$' ∉ c) (hw : isSpace w = true) :
    NoMatch blockRe (a ++ '$' :: (b ++ w :: '$' :: c)) ∧
    NoMatch inlineRe (a ++ '$' :: (b ++ w :: '$' :: c)) := by
  have hwd : w ≠ '$' := ne_dollar_of_isSpace hw
  have hbw : '$' ∉ b ++ [w] := by
    simp only [List.mem_append, List.mem_singleton, not_or]
    exact ⟨hb, fun h => hwd h.symm⟩
  have hlast := NoMatch_dollar_no_dollar c hc
  have hmidB : NoMatch blockRe (b ++ w :: '$' :: c) := by
    have := NoMatch_block_append (b ++ [w]) ('$' :: c) hbw hlast.1
    simpa using this
  have hmidI : NoMatch inlineRe (b ++ w :: '$' :: c) := by
    have := NoMatch_inline_append (b ++ [w]) ('$' :: c) hbw hlast.2
    simpa using this
  constructor
  · refine NoMatch_block_append a _ ha (NoMatch_cons.2 ⟨?_, hmidB⟩)
    cases b with
    | nil => exact blockRe_matchAt_dollar_ne _ hwd
    | cons d b => exact blockRe_matchAt_dollar_ne _ (fun hd => hb (by simp [hd]))
  · refine NoMatch_inline_append a _ ha (NoMatch_cons.2 ⟨?_, hmidI⟩)
    cases hm : inlineRe.matchAt ('$' :: (b ++ w :: '$' :: c)) with
    | none => rfl
    | some mr =>
      exfalso
      obtain ⟨m, rest⟩ := mr
      obtain ⟨X, mid, Y, _, hY, _, _, hmm, hsm⟩ := inlineRe_matchAt_some hm
      rw [hmm] at hsm
      simp only [List.cons_append, List.cons.injEq, true_and] at hsm
      have h1 : (b ++ [w]) ++ '$' :: c = (X :: mid ++ [Y]) ++ '$' :: rest := by
        simpa using hsm
      obtain ⟨h2, _⟩ := dollar_split_unique h1 hbw hc
      have h3 := (List.append_inj' h2 rfl).2
      simp only [List.cons.injEq, and_true] at h3
      rw [h3, hY] at hw
      exact absurd hw (by simp)

/-- With no match of either pattern the constructor of `MathFilter` leaves
the text as it is and records nothing. -/
theorem MathFilter_new_of_NoMatch (generateUuid : Nat → Str) (input : Str)
    (hB : NoMatch blockRe input) (hI : NoMatch inlineRe input) :
    MathFilter.new generateUuid input = (input, { mathBlocks_ := [], uuids := 0 }) := by
  unfold MathFilter.new MathFilter.filter
  simp only [regex_replace_of_NoMatch blockRe _ _ input hB,
    regex_replace_of_NoMatch inlineRe _ _ input hI]

/-- With no match of either pattern `ignoreMath` changes nothing in the
call: the passes run on the input itself and the destructor restores nothing. -/
theorem markdownToHTML_of_NoMatch (env : Env) (input : Str) (extensions : Extensions)
    (options : HTMLOptions) (htmlOutput : Str)
    (hB : NoMatch blockRe input) (hI : NoMatch inlineRe input) :
    markdownToHTML env input extensions options htmlOutput
      = markdownToHTMLPasses env input extensions options htmlOutput := by
  unfold markdownToHTML
  split
  · simp only [MathFilter_new_of_NoMatch env.generateUuid input hB hI]
    rfl
  · rfl

/-- The passes read the extensions through `mdExt` only, which does not
look at `ignoreMath`. -/
theorem markdownToHTMLPasses_ignoreMath (env : Env) (input : Str) (e : Extensions)
    (options : HTMLOptions) (htmlOutput : Str) (v : Bool) :
    markdownToHTMLPasses env input { e with ignoreMath := v } options htmlOutput
      = markdownToHTMLPasses env input e options htmlOutput := rfl

/-! ## The two bit masks -/

theorem testBit_orIf (flag : Bool) (bit mask j : Nat) :
    (orIf flag bit mask).testBit j = (mask.testBit j || (flag && bit.testBit j)) := by
  cases flag <;> simp [orIf, Nat.testBit_lor]

/-- A chain of `if (flag) mask |= BIT;` statements computes the OR of the
bits whose flag is set. -/
theorem foldl_orIf (L : List (Bool × Nat)) :
    ∀ m : Nat, L.foldl (fun m fb => orIf fb.1 fb.2 m) m
      = ((L.filter (fun fb => fb.1)).map (fun fb => fb.2)).foldl (fun m b => m ||| b) m := by
  induction L with
  | nil => intro m; rfl
  | cons fb L ih =>
    intro m
    obtain ⟨f, b⟩ := fb
    cases f
    · simpa [orIf] using ih m
    · simpa [orIf] using ih (m ||| b)

theorem mdExt_eq_orAll (K : MkdExt) (e : Extensions) :
    mdExt K e = orAll (enabledExtensionBits K e) :=
  foldl_orIf [(e.noIntraEmphasis, K.NO_INTRA_EMPHASIS), (e.tables, K.TABLES),
    (e.fencedCode, K.FENCED_CODE), (e.autolink, K.AUTOLINK),
    (e.strikethrough, K.STRIKETHROUGH), (e.laxSpacing, K.LAX_SPACING),
    (e.spaceHeaders, K.SPACE_HEADERS), (e.superscript, K.SUPERSCRIPT)] 0

theorem htmlRenderMode_eq_orAll (H : HtmlMode) (o : HTMLOptions) :
    htmlRenderMode H o = orAll (enabledRenderBits H o) :=
  foldl_orIf [(o.useXHTML, H.USE_XHTML), (o.hardWrap, H.HARD_WRAP), (o.toc, H.TOC),
    (o.safelink, H.SAFELINK), (o.skipHTML, H.SKIP_HTML), (o.skipStyle, H.SKIP_STYLE),
    (o.skipImages, H.SKIP_IMAGES), (o.skipLinks, H.SKIP_LINKS), (o.escape, H.ESCAPE)] 0

theorem mdExt_testBit (pos : MkdExt) (e : Extensions) (j : Nat) :
    (mdExt pos.shl e).testBit j
      = ((e.noIntraEmphasis && decide (pos.NO_INTRA_EMPHASIS = j))
        || (e.tables && decide (pos.TABLES = j))
        || (e.fencedCode && decide (pos.FENCED_CODE = j))
        || (e.autolink && decide (pos.AUTOLINK = j))
        || (e.strikethrough && decide (pos.STRIKETHROUGH = j))
        || (e.laxSpacing && decide (pos.LAX_SPACING = j))
        || (e.spaceHeaders && decide (pos.SPACE_HEADERS = j))
        || (e.superscript && decide (pos.SUPERSCRIPT = j))) := by
  simp only [mdExt, MkdExt.shl, testBit_orIf, Nat.testBit_two_pow, Nat.zero_testBit,
    Bool.false_or]

theorem htmlRenderMode_testBit (pos : HtmlMode) (o : HTMLOptions) (j : Nat) :
    (htmlRenderMode pos.shl o).testBit j
      = ((o.useXHTML && decide (pos.USE_XHTML = j))
        || (o.hardWrap && decide (pos.HARD_WRAP = j))
        || (o.toc && decide (pos.TOC = j))
        || (o.safelink && decide (pos.SAFELINK = j))
        || (o.skipHTML && decide (pos.SKIP_HTML = j))
        || (o.skipStyle && decide (pos.SKIP_STYLE = j))
        || (o.skipImages && decide (pos.SKIP_IMAGES = j))
        || (o.skipLinks && decide (pos.SKIP_LINKS = j))
        || (o.escape && decide (pos.ESCAPE = j))) := by
  simp only [htmlRenderMode, HtmlMode.shl, testBit_orIf, Nat.testBit_two_pow, Nat.zero_testBit,
    Bool.false_or]

/-- The sample UUID sequence never repeats. -/
theorem sampleUuid_injective : Function.Injective sampleUuid := by
  intro n m h
  match n, m with
  | 0, 0 => rfl
  | 1, 1 => rfl
  | 0, 1 => exact absurd h (by decide)
  | 1, 0 => exact absurd h (by decide)
  | 0, m + 2 =>
    have := congrArg List.length h
    simp [sampleUuid] at this
  | 1, m + 2 =>
    have := congrArg List.length h
    simp [sampleUuid] at this
  | n + 2, 0 =>
    have := congrArg List.length h
    simp [sampleUuid] at this
  | n + 2, 1 =>
    have := congrArg List.length h
    simp [sampleUuid] at this
  | n + 2, m + 2 =>
    have := congrArg List.length h
    simp [sampleUuid] at this
    omega

/-- The call is the passes on the protected input, then the restoration. -/
theorem markdownToHTML_eq (env : Env) (input : Str) (e : Extensions) (options : HTMLOptions)
    (htmlOutput : Str) :
    markdownToHTML env input e options htmlOutput
      = ((markdownToHTMLPasses env (protectedInput env input e) e options htmlOutput).1,
         restoreMath env input e
           (markdownToHTMLPasses env (protectedInput env input e) e options htmlOutput).2) := by
  unfold markdownToHTML protectedInput restoreMath
  cases e.ignoreMath <;> simp

/-- The only error `renderMarkdown` returns is the allocation error. -/
theorem renderMarkdown_error {env : Env} {inputBuffer : Str} {e : Extensions} {smartypants : Bool}
    {renderer : Renderer} {err : Error}
    (h : renderMarkdown env inputBuffer e smartypants renderer = Except.error err) :
    err = Error.not_enough_memory := by
  unfold renderMarkdown at h
  cases h1 : env.markdownAllocated renderer <;> cases smartypants <;>
    cases h2 : env.smartyBufferAllocated renderer <;> simp [h1, h2, allocationError] at h <;>
    exact h.symm

/-! ## replace_all: the equations of the scan, and texts the search cannot touch -/

theorem stripPrefix_eq_some_iff {search : Str} :
    ∀ {inp rest : Str}, stripPrefix search inp = some rest ↔ inp = search ++ rest := by
  induction search with
  | nil => intro inp rest; simp [stripPrefix, eq_comm]
  | cons a as ih =>
    intro inp rest
    cases inp with
    | nil => simp [stripPrefix]
    | cons b bs =>
      by_cases hab : a = b
      · subst hab
        simp [stripPrefix, ih]
      · simp [stripPrefix, hab, Ne.symm hab]

theorem replace_all_nil (search format : Str) : replace_all [] search format = [] := rfl

theorem replace_all_cons_none (search format : Str) (c : Char) (t : Str) (hs : search ≠ [])
    (h : stripPrefix search (c :: t) = none) :
    replace_all (c :: t) search format = c :: replace_all t search format := by
  cases search with
  | nil => exact absurd rfl hs
  | cons a as =>
    simp only [replace_all, List.length_cons, replace_all_loop, List.isEmpty_cons,
      Bool.false_eq_true, if_false, h]

theorem replace_all_cons_some (search format : Str) (c : Char) (t rest : Str) (hs : search ≠ [])
    (h : stripPrefix search (c :: t) = some rest) :
    replace_all (c :: t) search format = format ++ replace_all rest search format := by
  cases search with
  | nil => exact absurd rfl hs
  | cons a as =>
    have hlen := stripPrefix_length h
    simp only [List.length_cons] at hlen
    simp only [replace_all, List.length_cons, replace_all_loop, List.isEmpty_cons,
      Bool.false_eq_true, if_false, h]
    rw [replace_all_loop_eq (a :: as) format t.length rest (by omega)]
    rfl

/-- A character that the search text does not contain separates the scan:
what stands before it and what starts with it are replaced independently. -/
theorem replace_all_append_of_not_mem (search format : Str) (hs : search ≠ []) (g : Char)
    (hg : g ∉ search) (x : Str) :
    ∀ (n : Nat) (a : Str), a.length ≤ n →
      replace_all (a ++ g :: x) search format
        = replace_all a search format ++ replace_all (g :: x) search format := by
  intro n
  induction n with
  | zero =>
    intro a ha
    have : a = [] := List.length_eq_zero.1 (Nat.le_zero.1 ha)
    subst this
    rfl
  | succ n ih =>
    intro a ha
    cases a with
    | nil => rfl
    | cons c a =>
      simp only [List.length_cons, Nat.add_le_add_iff_right] at ha
      cases hm : stripPrefix search (c :: a) with
      | some r =>
        have hca := stripPrefix_eq_some_iff.1 hm
        have hm2 : stripPrefix search (c :: a ++ g :: x) = some (r ++ g :: x) :=
          stripPrefix_eq_some_iff.2 (by rw [hca]; simp)
        have hr : r.length ≤ n := by
          have := congrArg List.length hca
          have hpos := List.length_pos.2 hs
          simp only [List.length_cons, List.length_append] at this
          omega
        rw [List.cons_append] at hm2 ⊢
        rw [replace_all_cons_some search format c _ _ hs hm2,
          replace_all_cons_some search format c _ _ hs hm, ih r hr, List.append_assoc]
      | none =>
        have hm2 : stripPrefix search (c :: a ++ g :: x) = none := by
          cases hm3 : stripPrefix search (c :: a ++ g :: x) with
          | none => rfl
          | some r =>
            exfalso
            have h3 := stripPrefix_eq_some_iff.1 hm3
            rcases List.append_eq_append_iff.1 h3 with ⟨a2, h4, h5⟩ | ⟨c2, h4, h5⟩
            · cases a2 with
              | nil =>
                simp only [List.append_nil] at h4
                have : stripPrefix search (c :: a) = some [] :=
                  stripPrefix_eq_some_iff.2 (by rw [h4]; simp)
                rw [this] at hm
                exact absurd hm (by simp)
              | cons d a2 =>
                simp only [List.cons_append, List.cons.injEq] at h5
                exact hg (by rw [h4, ← h5.1]; simp)
            · have : stripPrefix search (c :: a) = some c2 := stripPrefix_eq_some_iff.2 h4
              rw [this] at hm
              exact absurd hm (by simp)
        rw [List.cons_append] at hm2 ⊢
        rw [replace_all_cons_none search format c _ hs hm2,
          replace_all_cons_none search format c _ hs hm, ih a ha]
        rfl

/-- A fixed text in which no run of hexadecimal digits as long as the search
text starts is copied, whatever follows it. -/
theorem replace_all_guarded (search format : Str) (hs : search ≠ [])
    (hhex : ∀ c ∈ search, isHexDigit c = true) (rest : Str) :
    ∀ fixed : Str, guarded search.length fixed = true →
      replace_all (fixed ++ rest) search format = fixed ++ replace_all rest search format := by
  intro fixed
  induction fixed with
  | nil => intro _; rfl
  | cons c t ih =>
    intro hgd
    simp only [guarded, List.tails, List.all_cons, List.isEmpty_cons, Bool.false_or,
      Bool.and_eq_true] at hgd
    obtain ⟨h0, ht⟩ := hgd
    have hm : stripPrefix search (c :: t ++ rest) = none := by
      cases hm3 : stripPrefix search (c :: t ++ rest) with
      | none => rfl
      | some r =>
        exfalso
        have h3 := stripPrefix_eq_some_iff.1 hm3
        obtain ⟨d, hd, hdh⟩ := List.any_eq_true.1 h0
        have hpre : (c :: t).take search.length <+: search := by
          have h1 : (c :: t).take search.length <+: (c :: t ++ rest).take search.length :=
            (List.prefix_append (c :: t) rest).take search.length
          rw [h3, List.take_left'] at h1
          · exact h1
          · rfl
        have := hhex d (hpre.subset hd)
        rw [this] at hdh
        exact absurd hdh (by simp)
    rw [List.cons_append] at hm ⊢
    rw [replace_all_cons_none search format c _ hs hm, ih ht]
    rfl

theorem tocContainer_eq (tocOutput : Str) :
    tocContainer tocOutput = tocOpen ++ tocOutput ++ tocClose := by
  simp [tocContainer, tocOpen, tocClose]

theorem isUuid_iff {s : Str} :
    isUuid s = true ↔ s.length = 32 ∧ ∀ c ∈ s, isHexDigit c = true := by
  simp [isUuid, List.all_eq_true]

/-- One `restore` with a UUID key leaves the TOC container in place and works
on the three texts around and inside it separately. -/
theorem restore_container (block : Str × Str) (hkey : isUuid block.1 = true)
    (old toc body : Str) :
    MathFilter.restore (old ++ tocOpen ++ toc ++ tocClose ++ body) block
      = MathFilter.restore old block ++ tocOpen ++ MathFilter.restore toc block ++ tocClose
        ++ MathFilter.restore body block := by
  obtain ⟨hlen, hhex⟩ := isUuid_iff.1 hkey
  have hs : block.1 ≠ [] := by
    intro h
    rw [h] at hlen
    simp at hlen
  have hlt : '<' ∉ block.1 := by
    intro h
    have := hhex _ h
    exact absurd this (by decide)
  have hopen : guarded block.1.length tocOpen = true := by rw [hlen]; decide
  have hclose : guarded block.1.length tocClose = true := by rw [hlen]; decide
  unfold MathFilter.restore
  have e1 : old ++ tocOpen ++ toc ++ tocClose ++ body
      = old ++ '<' :: (tocOpen.tail ++ (toc ++ tocClose ++ body)) := by
    simp [tocOpen]
  have e2 : '<' :: (tocOpen.tail ++ (toc ++ tocClose ++ body))
      = tocOpen ++ (toc ++ '<' :: (tocClose.tail ++ body)) := by
    simp [tocOpen, tocClose]
  have e3 : '<' :: (tocClose.tail ++ body) = tocClose ++ body := by
    simp [tocClose]
  rw [e1, replace_all_append_of_not_mem block.1 block.2 hs '<' hlt _ old.length old (Nat.le_refl _),
    e2, replace_all_guarded block.1 block.2 hs hhex _ tocOpen hopen,
    replace_all_append_of_not_mem block.1 block.2 hs '<' hlt _ toc.length toc (Nat.le_refl _),
    e3, replace_all_guarded block.1 block.2 hs hhex _ tocClose hclose]
  simp

/-- The destructor with UUID keys leaves the TOC container in place. -/
theorem foldl_restore_container :
    ∀ (table : StrMap), (∀ block ∈ table, isUuid block.1 = true) → ∀ (old toc body : Str),
      table.foldl MathFilter.restore (old ++ tocOpen ++ toc ++ tocClose ++ body)
        = table.foldl MathFilter.restore old ++ tocOpen ++ table.foldl MathFilter.restore toc
          ++ tocClose ++ table.foldl MathFilter.restore body := by
  intro table
  induction table with
  | nil => intro _ old toc body; rfl
  | cons block table ih =>
    intro h old toc body
    simp only [List.foldl_cons]
    rw [restore_container block (h block (by simp)) old toc body,
      ih (fun b hb => h b (by simp [hb]))]

theorem foldl_restore_nil : ∀ (table : StrMap), table.foldl MathFilter.restore [] = [] := by
  intro table
  induction table with
  | nil => rfl
  | cons block table ih =>
    simp only [List.foldl_cons]
    exact ih

theorem restoreMath_eq (env : Env) (input : Str) (e : Extensions) (out : Str) :
    restoreMath env input e out = (mathTable env input e).foldl MathFilter.restore out := by
  unfold restoreMath mathTable MathFilter.destroy
  cases e.ignoreMath <;> simp

theorem c_str_of_no_nul (s : Str) (h : Char.ofNat 0 ∉ s) : c_str s = s := by
  unfold c_str
  rw [List.takeWhile_eq_self_iff]
  intro c hc
  simp only [bne_iff_ne, ne_eq]
  intro h0
  exact h (h0 ▸ hc)

/-! ## The properties of the specification -/

/-- C5 (extension flag mapping).  Let the eight `MKDEXT_*` constants be `1 << n`
for eight distinct bit positions.  Then the mask `mdExt` of `renderMarkdown`
is the bitwise OR of the bits of the enabled flags among the eight; each
flag's bit is set exactly when the flag is enabled; no other bit is ever set;
the mask is 0 when all eight flags are off; and two extension sets that agree
on the eight flags (whatever `ignoreMath` is) give the same mask. -/
theorem mdExt_flag_mapping (K pos : MkdExt) (e : Extensions)
    (hK : K = pos.shl) (hpos : pos.toList.Nodup) :
    mdExt K e = orAll (enabledExtensionBits K e)
    ∧ (mdExt K e).testBit pos.NO_INTRA_EMPHASIS = e.noIntraEmphasis
    ∧ (mdExt K e).testBit pos.TABLES = e.tables
    ∧ (mdExt K e).testBit pos.FENCED_CODE = e.fencedCode
    ∧ (mdExt K e).testBit pos.AUTOLINK = e.autolink
    ∧ (mdExt K e).testBit pos.STRIKETHROUGH = e.strikethrough
    ∧ (mdExt K e).testBit pos.LAX_SPACING = e.laxSpacing
    ∧ (mdExt K e).testBit pos.SPACE_HEADERS = e.spaceHeaders
    ∧ (mdExt K e).testBit pos.SUPERSCRIPT = e.superscript
    ∧ (∀ j, j ∉ pos.toList → (mdExt K e).testBit j = false)
    ∧ (e.noIntraEmphasis = false → e.tables = false → e.fencedCode = false →
        e.autolink = false → e.strikethrough = false → e.laxSpacing = false →
        e.spaceHeaders = false → e.superscript = false → mdExt K e = 0)
    ∧ (∀ e2 : Extensions, e2.noIntraEmphasis = e.noIntraEmphasis → e2.tables = e.tables →
        e2.fencedCode = e.fencedCode → e2.autolink = e.autolink →
        e2.strikethrough = e.strikethrough → e2.laxSpacing = e.laxSpacing →
        e2.spaceHeaders = e.spaceHeaders → e2.superscript = e.superscript →
        mdExt K e2 = mdExt K e) := by
  subst hK
  simp only [MkdExt.toList, List.nodup_cons, List.mem_cons, List.mem_singleton, not_or,
    List.not_mem_nil, not_false_eq_true, List.nodup_nil, and_true] at hpos
  obtain ⟨⟨h12, h13, h14, h15, h16, h17, h18⟩, ⟨h23, h24, h25, h26, h27, h28⟩,
    ⟨h34, h35, h36, h37, h38⟩, ⟨h45, h46, h47, h48⟩, ⟨h56, h57, h58⟩, ⟨h67, h68⟩, h78⟩ := hpos
  refine ⟨mdExt_eq_orAll _ e, ?_, ?_, ?_, ?_, ?_, ?_, ?_, ?_, ?_, ?_, ?_⟩
  · simp [mdExt_testBit, Ne.symm h12, Ne.symm h13, Ne.symm h14, Ne.symm h15, Ne.symm h16,
      Ne.symm h17, Ne.symm h18]
  · simp [mdExt_testBit, h12, Ne.symm h23, Ne.symm h24, Ne.symm h25, Ne.symm h26, Ne.symm h27,
      Ne.symm h28]
  · simp [mdExt_testBit, h13, h23, Ne.symm h34, Ne.symm h35, Ne.symm h36, Ne.symm h37,
      Ne.symm h38]
  · simp [mdExt_testBit, h14, h24, h34, Ne.symm h45, Ne.symm h46, Ne.symm h47, Ne.symm h48]
  · simp [mdExt_testBit, h15, h25, h35, h45, Ne.symm h56, Ne.symm h57, Ne.symm h58]
  · simp [mdExt_testBit, h16, h26, h36, h46, h56, Ne.symm h67, Ne.symm h68]
  · simp [mdExt_testBit, h17, h27, h37, h47, h57, h67, Ne.symm h78]
  · simp [mdExt_testBit, h18, h28, h38, h48, h58, h68, h78]
  · intro j hj
    simp only [MkdExt.toList, List.mem_cons, List.mem_singleton, not_or, List.not_mem_nil,
      not_false_eq_true, and_true] at hj
    obtain ⟨j1, j2, j3, j4, j5, j6, j7, j8⟩ := hj
    simp [mdExt_testBit, Ne.symm j1, Ne.symm j2, Ne.symm j3, Ne.symm j4, Ne.symm j5, Ne.symm j6,
      Ne.symm j7, Ne.symm j8]
  · intro a b c d f g h i
    simp [mdExt, orIf, a, b, c, d, f, g, h, i]
  · intro e2 a b c d f g h i
    simp only [mdExt, a, b, c, d, f, g, h, i]

/-- C5 at the sample constants, with tables and lax spacing enabled: the
mask is `2 | 256`, the tables bit is set, the autolink bit is not. -/
theorem mdExt_flag_mapping_witness :
    sampleMkdExtPos.toList.Nodup
    ∧ mdExt sampleMkdExtPos.shl { noExtensions with tables := true, laxSpacing := true }
        = orAll [2, 256]
    ∧ (mdExt sampleMkdExtPos.shl
        { noExtensions with tables := true, laxSpacing := true }).testBit 1 = true
    ∧ (mdExt sampleMkdExtPos.shl
        { noExtensions with tables := true, laxSpacing := true }).testBit 3 = false := by
  have h := mdExt_flag_mapping sampleMkdExtPos.shl sampleMkdExtPos
    { noExtensions with tables := true, laxSpacing := true } rfl (by decide)
  exact ⟨by decide, h.1, h.2.2.1, h.2.2.2.2.1⟩

/-- C8 (body render-mode mapping).  Let the nine `HTML_*` constants be `1 << n`
for nine distinct bit positions.  Then the mask `htmlRenderMode` built for the
body pass is the bitwise OR of the bits of the enabled options among
`useXHTML`, `hardWrap`, `toc`, `safelink`, `skipHTML`, `skipStyle`,
`skipImages`, `skipLinks` and `escape`; each option's bit is set exactly when
the option is enabled, in particular the `HTML_TOC` bit exactly when
`options.toc`; no other bit is set; and `smartypants` contributes nothing:
two option sets that agree on the nine give the same mask. -/
theorem htmlRenderMode_mapping (H pos : HtmlMode) (o : HTMLOptions)
    (hH : H = pos.shl) (hpos : pos.toList.Nodup) :
    htmlRenderMode H o = orAll (enabledRenderBits H o)
    ∧ (htmlRenderMode H o).testBit pos.USE_XHTML = o.useXHTML
    ∧ (htmlRenderMode H o).testBit pos.HARD_WRAP = o.hardWrap
    ∧ (htmlRenderMode H o).testBit pos.TOC = o.toc
    ∧ (htmlRenderMode H o).testBit pos.SAFELINK = o.safelink
    ∧ (htmlRenderMode H o).testBit pos.SKIP_HTML = o.skipHTML
    ∧ (htmlRenderMode H o).testBit pos.SKIP_STYLE = o.skipStyle
    ∧ (htmlRenderMode H o).testBit pos.SKIP_IMAGES = o.skipImages
    ∧ (htmlRenderMode H o).testBit pos.SKIP_LINKS = o.skipLinks
    ∧ (htmlRenderMode H o).testBit pos.ESCAPE = o.escape
    ∧ (∀ j, j ∉ pos.toList → (htmlRenderMode H o).testBit j = false)
    ∧ (∀ o2 : HTMLOptions, o2.useXHTML = o.useXHTML → o2.hardWrap = o.hardWrap →
        o2.toc = o.toc → o2.safelink = o.safelink → o2.skipHTML = o.skipHTML →
        o2.skipStyle = o.skipStyle → o2.skipImages = o.skipImages →
        o2.skipLinks = o.skipLinks → o2.escape = o.escape →
        htmlRenderMode H o2 = htmlRenderMode H o) := by
  subst hH
  simp only [HtmlMode.toList, List.nodup_cons, List.mem_cons, List.mem_singleton, not_or,
    List.not_mem_nil, not_false_eq_true, List.nodup_nil, and_true] at hpos
  obtain ⟨⟨h12, h13, h14, h15, h16, h17, h18, h19⟩, ⟨h23, h24, h25, h26, h27, h28, h29⟩,
    ⟨h34, h35, h36, h37, h38, h39⟩, ⟨h45, h46, h47, h48, h49⟩, ⟨h56, h57, h58, h59⟩,
    ⟨h67, h68, h69⟩, ⟨h78, h79⟩, h89⟩ := hpos
  refine ⟨htmlRenderMode_eq_orAll _ o, ?_, ?_, ?_, ?_, ?_, ?_, ?_, ?_, ?_, ?_, ?_⟩
  · simp [htmlRenderMode_testBit, Ne.symm h12, Ne.symm h13, Ne.symm h14, Ne.symm h15,
      Ne.symm h16, Ne.symm h17, Ne.symm h18, Ne.symm h19]
  · simp [htmlRenderMode_testBit, h12, Ne.symm h23, Ne.symm h24, Ne.symm h25, Ne.symm h26,
      Ne.symm h27, Ne.symm h28, Ne.symm h29]
  · simp [htmlRenderMode_testBit, h13, h23, Ne.symm h34, Ne.symm h35, Ne.symm h36, Ne.symm h37,
      Ne.symm h38, Ne.symm h39]
  · simp [htmlRenderMode_testBit, h14, h24, h34, Ne.symm h45, Ne.symm h46, Ne.symm h47,
      Ne.symm h48, Ne.symm h49]
  · simp [htmlRenderMode_testBit, h15, h25, h35, h45, Ne.symm h56, Ne.symm h57, Ne.symm h58,
      Ne.symm h59]
  · simp [htmlRenderMode_testBit, h16, h26, h36, h46, h56, Ne.symm h67, Ne.symm h68,
      Ne.symm h69]
  · simp [htmlRenderMode_testBit, h17, h27, h37, h47, h57, h67, Ne.symm h78, Ne.symm h79]
  · simp [htmlRenderMode_testBit, h18, h28, h38, h48, h58, h68, h78, Ne.symm h89]
  · simp [htmlRenderMode_testBit, h19, h29, h39, h49, h59, h69, h79, h89]
  · intro j hj
    simp only [HtmlMode.toList, List.mem_cons, List.mem_singleton, not_or, List.not_mem_nil,
      not_false_eq_true, and_true] at hj
    obtain ⟨j1, j2, j3, j4, j5, j6, j7, j8, j9⟩ := hj
    simp [htmlRenderMode_testBit, Ne.symm j1, Ne.symm j2, Ne.symm j3, Ne.symm j4, Ne.symm j5,
      Ne.symm j6, Ne.symm j7, Ne.symm j8, Ne.symm j9]
  · intro o2 a b c d f g h i j
    simp only [htmlRenderMode, a, b, c, d, f, g, h, i, j]

/-- C8 at the sample constants, with `toc`, `escape` and `smartypants`
enabled: the mask is `64 | 512`, the TOC bit is set, the hard-wrap bit is not. -/
theorem htmlRenderMode_mapping_witness :
    sampleHtmlPos.toList.Nodup
    ∧ htmlRenderMode sampleHtmlPos.shl
        { noOptions with toc := true, escape := true, smartypants := true } = orAll [64, 512]
    ∧ (htmlRenderMode sampleHtmlPos.shl
        { noOptions with toc := true, escape := true, smartypants := true }).testBit 6 = true
    ∧ (htmlRenderMode sampleHtmlPos.shl
        { noOptions with toc := true, escape := true, smartypants := true }).testBit 7 = false := by
  have h := htmlRenderMode_mapping sampleHtmlPos.shl sampleHtmlPos
    { noOptions with toc := true, escape := true, smartypants := true } rfl (by decide)
  exact ⟨by decide, h.1, h.2.2.2.1, h.2.2.1⟩

/-- C9 (greedy block-math match).  Let the text be `pre ++ "$$" ++ mid ++ "$$" ++ post`
where the first `$$` shown is the first occurrence of `$$` in the text (no `$$`
starts inside `pre`), the second one is the last occurrence (no `$$` starts
after it) and `mid` holds at least one character (of any kind, newlines and
further `$$` included).  Then the block scan of a fresh `MathFilter` draws
exactly one UUID, replaces the span from the first `$$` through the last `$$`
by it, records exactly that span under it, and copies `pre` and `post`. -/
theorem block_scan_greedy (generateUuid : Nat → Str) (pre mid post : Str)
    (hfirst : ¬ ['$', '$'] <:+: pre ++ ['$'])
    (hmid : mid ≠ [])
    (hlast : ¬ ['$', '$'] <:+: '$' :: post) :
    MathFilter.filter generateUuid blockRe { mathBlocks_ := [], uuids := 0 }
        (pre ++ '$' :: '$' :: (mid ++ '$' :: '$' :: post))
      = (pre ++ generateUuid 0 ++ post,
         { mathBlocks_ := [(generateUuid 0, '$' :: '$' :: (mid ++ ['$', '$']))], uuids := 1 }) := by
  unfold MathFilter.filter
  have hpre : ∀ a c b, pre = a ++ c :: b →
      blockRe.matchAt (c :: b ++ '$' :: '$' :: (mid ++ '$' :: '$' :: post)) = none := by
    intro a c b hab
    cases hm : blockRe.matchAt (c :: b ++ '$' :: '$' :: (mid ++ '$' :: '$' :: post)) with
    | none => rfl
    | some mr =>
      exfalso
      obtain ⟨m, rest⟩ := mr
      obtain ⟨mid2, _, hmm, hsm⟩ := blockRe_matchAt_some hm
      rw [hmm] at hsm
      apply hfirst
      cases b with
      | nil =>
        simp only [List.cons_append, List.nil_append, List.cons.injEq] at hsm
        refine ⟨a, [], ?_⟩
        rw [hab, hsm.1]
        simp
      | cons d b =>
        simp only [List.cons_append, List.cons.injEq] at hsm
        refine ⟨a, b ++ ['$'], ?_⟩
        rw [hab, hsm.1, hsm.2.1]
        simp
  have hpost : NoMatch blockRe post :=
    NoMatch_block_of_no_pair post (fun ⟨a, b, hab⟩ => hlast ⟨'$' :: a, b, by simp [← hab]⟩)
  rw [regex_replace_append blockRe _ _ _ pre hpre,
    regex_replace_cons_some blockRe _ _ '$' _ _ post (blockRe_matchAt_greedy mid post hmid hlast),
    regex_replace_of_NoMatch blockRe _ _ post hpost]
  simp [MathFilter.substitute, StrMap.insert]

/-- C9 at the text `a$$b$$c$$d`: the first `$$` follows `a`, the last one
precedes `d`, and the span between them holds a further `$$`. -/
theorem block_scan_greedy_witness :
    ¬ ['$', '$'] <:+: ['a'] ++ ['$']
    ∧ ¬ ['$', '$'] <:+: '$' :: ['d']
    ∧ MathFilter.filter sampleUuid blockRe { mathBlocks_ := [], uuids := 0 } "a$$b$$c$$d".toList
      = ("a".toList ++ sampleUuid 0 ++ "d".toList,
         { mathBlocks_ := [(sampleUuid 0, "$$b$$c$$".toList)], uuids := 1 }) :=
  ⟨by decide, by decide,
    block_scan_greedy sampleUuid ['a'] "b$$c".toList ['d'] (by decide) (by decide) (by decide)⟩

/-- C6 (inline-math non-match, Scenario 2).  Let the text hold exactly two
dollars, `a ++ "$" ++ b ++ [w] ++ "$" ++ c` with no dollar in `a`, `b`, `c`,
where the character `w` right before the second dollar is a space character.
Then the constructor of `MathFilter` matches neither pattern: it returns the
text unchanged, records nothing and draws no UUID; and a call with
`ignoreMath` set runs its passes on the literal text and restores nothing. -/
theorem inline_math_non_match (generateUuid : Nat → Str) (a b c : Str) (w : Char)
    (ha : '$' ∉ a) (hb : '$' ∉ b) (hc : '$' ∉ c) (hw : isSpace w = true) :
    MathFilter.new generateUuid (a ++ '$' :: (b ++ w :: '$' :: c))
      = (a ++ '$' :: (b ++ w :: '$' :: c), { mathBlocks_ := [], uuids := 0 })
    ∧ ∀ (env : Env) (e : Extensions) (options : HTMLOptions) (htmlOutput : Str),
        e.ignoreMath = true →
        markdownToHTML env (a ++ '$' :: (b ++ w :: '$' :: c)) e options htmlOutput
          = markdownToHTMLPasses env (a ++ '$' :: (b ++ w :: '$' :: c)) e options htmlOutput := by
  have hn := NoMatch_space_before_second a b c w ha hb hc hw
  exact ⟨MathFilter_new_of_NoMatch generateUuid _ hn.1 hn.2,
    fun env e options htmlOutput _ => markdownToHTML_of_NoMatch env _ e options htmlOutput hn.1 hn.2⟩

/-- C6 at the text of Scenario 2, `Cost is $5 and $10`: the hypotheses hold,
the filter hands the text on as it is, and it still contains `$5 and $10`. -/
theorem inline_math_non_match_witness :
    isSpace ' ' = true
    ∧ MathFilter.new sampleUuid "Cost is $5 and $10".toList
        = ("Cost is $5 and $10".toList, { mathBlocks_ := [], uuids := 0 })
    ∧ "$5 and $10".toList <:+: (MathFilter.new sampleUuid "Cost is $5 and $10".toList).1 := by
  have h := (inline_math_non_match sampleUuid "Cost is ".toList "5 and".toList "10".toList ' '
    (by decide) (by decide) (by decide) (by decide)).1
  exact ⟨by decide, h, by decide⟩

/-- C7, amended (inline-math match).  For a text `$` X r Y `$` where X and Y
are non-space characters other than `$` and r is a non-empty run of characters
other than newline and `$`, the constructor of `MathFilter` replaces the whole
text by one UUID and records exactly (UUID, text). -/
theorem inline_math_match (generateUuid : Nat → Str) (X Y : Char) (r : Str)
    (hX : isSpace X = false) (hXd : X ≠ '$') (hY : isSpace Y = false) (hYd : Y ≠ '$')
    (hr : r ≠ []) (hrc : ∀ c ∈ r, c ≠ '\n' ∧ c ≠ '$') :
    MathFilter.new generateUuid ('$' :: X :: (r ++ [Y, '$']))
      = (generateUuid 0,
         { mathBlocks_ := [(generateUuid 0, '$' :: X :: (r ++ [Y, '$']))], uuids := 1 }) := by
  have hin : '$' ∉ X :: (r ++ [Y]) := by
    simp only [List.mem_cons, List.mem_append, List.mem_singleton, not_or, List.not_mem_nil,
      or_false]
    exact ⟨fun h => hXd h.symm, fun h => (hrc _ h).2 rfl, fun h => hYd h.symm⟩
  have hB : NoMatch blockRe ('$' :: X :: (r ++ [Y, '$'])) := by
    refine NoMatch_cons.2 ⟨blockRe_matchAt_dollar_ne _ hXd, ?_⟩
    have := NoMatch_block_append (X :: (r ++ [Y])) ['$'] hin
      (NoMatch_dollar_no_dollar [] (by simp)).1
    simpa using this
  unfold MathFilter.new MathFilter.filter
  simp only [regex_replace_of_NoMatch blockRe _ _ _ hB]
  have hm := inlineRe_matchAt_whole X Y r [] hX hY hr (fun c hc => (hrc c hc).1) (by simp)
  rw [regex_replace_cons_some inlineRe _ _ '$' _ _ [] hm, regex_replace_nil]
  simp [MathFilter.substitute, StrMap.insert]

/-- C7 amended, at the text `$a+b$`. -/
theorem inline_math_match_witness :
    isSpace 'a' = false ∧ isSpace 'b' = false
    ∧ MathFilter.new sampleUuid "$a+b$".toList
      = (sampleUuid 0, { mathBlocks_ := [(sampleUuid 0, "$a+b$".toList)], uuids := 1 }) :=
  ⟨by decide, by decide,
    inline_math_match sampleUuid 'a' 'b' ['+'] (by decide) (by decide) (by decide) (by decide)
      (by decide) (by decide)⟩

/-- C7 as stated fails for the empty run: the text `$ab$` (X = `a`, r empty,
Y = `b`) is left as it is, no UUID is drawn and nothing is recorded. -/
theorem inline_math_empty_run_counterexample :
    isSpace 'a' = false ∧ isSpace 'b' = false
    ∧ MathFilter.new sampleUuid ('$' :: 'a' :: ([] ++ ['b', '$']))
        = ("$ab$".toList, { mathBlocks_ := [], uuids := 0 })
    ∧ MathFilter.new sampleUuid ('$' :: 'a' :: ([] ++ ['b', '$']))
        ≠ (sampleUuid 0,
           { mathBlocks_ := [(sampleUuid 0, '$' :: 'a' :: ([] ++ ['b', '$']))], uuids := 1 }) := by
  decide

/-- C4 (non-interference of ignoreMath).  For an input in which neither math
pattern matches at any position, in particular for an input without a dollar,
and for every setting of the other extension flags and of the options, the
call with `ignoreMath = true` returns the same error value and leaves the
same output string as the call with `ignoreMath = false`, the collaborators
being the same. -/
theorem ignoreMath_non_interference (env : Env) (input : Str) (e : Extensions)
    (options : HTMLOptions) (htmlOutput : Str)
    (h : '$' ∉ input ∨ (NoMatch blockRe input ∧ NoMatch inlineRe input)) :
    markdownToHTML env input { e with ignoreMath := true } options htmlOutput
      = markdownToHTML env input { e with ignoreMath := false } options htmlOutput := by
  have hn : NoMatch blockRe input ∧ NoMatch inlineRe input := by
    rcases h with h | h
    · exact NoMatch_of_no_dollar input h
    · exact h
  rw [markdownToHTML_of_NoMatch env input _ options htmlOutput hn.1 hn.2,
    markdownToHTML_of_NoMatch env input _ options htmlOutput hn.1 hn.2]
  rfl

/-- C4 at the sample environment, with tables, the table of contents and the
typography pass switched on: once at a text without dollar, once at the text
`Cost is $5 and $10`, where both patterns are tried and neither matches. -/
theorem ignoreMath_non_interference_witness :
    '$' ∉ "# Title -- no math".toList
    ∧ markdownToHTML sampleEnv "# Title -- no math".toList
        { noExtensions with tables := true, ignoreMath := true }
        { noOptions with toc := true, smartypants := true } []
      = markdownToHTML sampleEnv "# Title -- no math".toList
        { noExtensions with tables := true, ignoreMath := false }
        { noOptions with toc := true, smartypants := true } []
    ∧ NoMatch blockRe "Cost is $5 and $10".toList
    ∧ NoMatch inlineRe "Cost is $5 and $10".toList
    ∧ markdownToHTML sampleEnv "Cost is $5 and $10".toList
        { noExtensions with tables := true, ignoreMath := true }
        { noOptions with toc := true, smartypants := true } []
      = markdownToHTML sampleEnv "Cost is $5 and $10".toList
        { noExtensions with tables := true, ignoreMath := false }
        { noOptions with toc := true, smartypants := true } [] :=
  ⟨by decide,
    ignoreMath_non_interference sampleEnv "# Title -- no math".toList
      { noExtensions with tables := true } { noOptions with toc := true, smartypants := true } []
      (Or.inl (by decide)),
    by decide, by decide,
    ignoreMath_non_interference sampleEnv "Cost is $5 and $10".toList
      { noExtensions with tables := true } { noOptions with toc := true, smartypants := true } []
      (Or.inr ⟨by decide, by decide⟩)⟩

/-- C10, amended (output assembly and per-pass typography).  For every
successful call with `ignoreMath` off, the output string after the call is the
output string before the call followed by P(toc) and T(body), where `body` is
the body-pass rendering of the unmodified input, T is the smartypants
substitution when `options.smartypants` is set and the identity otherwise,
followed by the reading back through `c_str()`, which cuts the text at its
first NUL, and P(toc) is empty when `options.toc` is off and otherwise the two
opening lines of the container, T of the TOC-pass rendering of the input, and
the closing `</div>` with an empty line.  Where the two texts hold no NUL,
nothing is cut. -/
theorem output_assembly (env : Env) (input : Str) (e : Extensions) (options : HTMLOptions)
    (htmlOutput : Str) (hmath : e.ignoreMath = false)
    (hok : (markdownToHTML env input e options htmlOutput).1 = Error.Success) :
    (markdownToHTML env input e options htmlOutput).2
      = htmlOutput
        ++ (if options.toc then
              "<div id=\"toc\">\n<div id=\"toc_header\">Table of Contents</div>\n".toList
                ++ c_str (if options.smartypants then
                      env.sdhtml_smartypants
                        (env.sd_markdown_render (mdExt env.MKDEXT e) kMaxNesting Renderer.toc input)
                    else env.sd_markdown_render (mdExt env.MKDEXT e) kMaxNesting Renderer.toc input)
                ++ "</div>\n\n".toList
            else [])
        ++ c_str (if options.smartypants then
              env.sdhtml_smartypants
                (env.sd_markdown_render (mdExt env.MKDEXT e) kMaxNesting
                  (Renderer.html (htmlRenderMode env.HTML options)) input)
            else env.sd_markdown_render (mdExt env.MKDEXT e) kMaxNesting
                  (Renderer.html (htmlRenderMode env.HTML options)) input)
    ∧ (Char.ofNat 0 ∉ (if options.smartypants then
              env.sdhtml_smartypants
                (env.sd_markdown_render (mdExt env.MKDEXT e) kMaxNesting Renderer.toc input)
            else env.sd_markdown_render (mdExt env.MKDEXT e) kMaxNesting Renderer.toc input) →
       Char.ofNat 0 ∉ (if options.smartypants then
              env.sdhtml_smartypants
                (env.sd_markdown_render (mdExt env.MKDEXT e) kMaxNesting
                  (Renderer.html (htmlRenderMode env.HTML options)) input)
            else env.sd_markdown_render (mdExt env.MKDEXT e) kMaxNesting
                  (Renderer.html (htmlRenderMode env.HTML options)) input) →
       (markdownToHTML env input e options htmlOutput).2
        = htmlOutput
          ++ (if options.toc then
                "<div id=\"toc\">\n<div id=\"toc_header\">Table of Contents</div>\n".toList
                  ++ (if options.smartypants then
                        env.sdhtml_smartypants
                          (env.sd_markdown_render (mdExt env.MKDEXT e) kMaxNesting Renderer.toc
                            input)
                      else env.sd_markdown_render (mdExt env.MKDEXT e) kMaxNesting Renderer.toc
                        input)
                  ++ "</div>\n\n".toList
              else [])
          ++ (if options.smartypants then
                env.sdhtml_smartypants
                  (env.sd_markdown_render (mdExt env.MKDEXT e) kMaxNesting
                    (Renderer.html (htmlRenderMode env.HTML options)) input)
              else env.sd_markdown_render (mdExt env.MKDEXT e) kMaxNesting
                    (Renderer.html (htmlRenderMode env.HTML options)) input)) := by
  have main : (markdownToHTML env input e options htmlOutput).2
      = htmlOutput
        ++ (if options.toc then
              "<div id=\"toc\">\n<div id=\"toc_header\">Table of Contents</div>\n".toList
                ++ c_str (if options.smartypants then
                      env.sdhtml_smartypants
                        (env.sd_markdown_render (mdExt env.MKDEXT e) kMaxNesting Renderer.toc input)
                    else env.sd_markdown_render (mdExt env.MKDEXT e) kMaxNesting Renderer.toc input)
                ++ "</div>\n\n".toList
            else [])
        ++ c_str (if options.smartypants then
              env.sdhtml_smartypants
                (env.sd_markdown_render (mdExt env.MKDEXT e) kMaxNesting
                  (Renderer.html (htmlRenderMode env.HTML options)) input)
            else env.sd_markdown_render (mdExt env.MKDEXT e) kMaxNesting
                  (Renderer.html (htmlRenderMode env.HTML options)) input) := by
    unfold markdownToHTML at hok ⊢
    simp only [hmath, Bool.false_eq_true, if_false] at hok ⊢
    unfold markdownToHTMLPasses renderMarkdown at hok ⊢
    cases hi : env.inputBufferAllocated input <;>
    cases ht : options.toc <;>
    cases hs : options.smartypants <;>
    cases hb : env.markdownAllocated (Renderer.html (htmlRenderMode env.HTML options)) <;>
    cases hbs : env.smartyBufferAllocated (Renderer.html (htmlRenderMode env.HTML options)) <;>
    cases htm : env.markdownAllocated Renderer.toc <;>
    cases hts : env.smartyBufferAllocated Renderer.toc <;>
    simp [hi, ht, hs, hb, hbs, htm, hts, tocContainer, allocationError] at hok ⊢
  refine ⟨main, ?_⟩
  intro h1 h2
  rw [main, c_str_of_no_nul _ h1, c_str_of_no_nul _ h2]

/-- C10 amended, at the sample environment, with the table of contents and
the typography pass switched on and an output string that is not empty. -/
theorem output_assembly_witness :
    (markdownToHTML sampleEnv "# T -- x".toList noExtensions
        { noOptions with toc := true, smartypants := true } "<p>old</p>\n".toList).1
      = Error.Success
    ∧ (markdownToHTML sampleEnv "# T -- x".toList noExtensions
        { noOptions with toc := true, smartypants := true } "<p>old</p>\n".toList).2
      = ("<p>old</p>\n"
          ++ "<div id=\"toc\">\n<div id=\"toc_header\">Table of Contents</div>\n<ul>\n</ul>\n"
          ++ "</div>\n\n" ++ "<p># T &mdash; x</p>\n").toList := by
  have h := (output_assembly sampleEnv "# T -- x".toList noExtensions
    { noOptions with toc := true, smartypants := true } "<p>old</p>\n".toList rfl (by decide)).1
  exact ⟨by decide, h.trans (by decide)⟩

/-- C10 as stated fails where a pass returns a NUL: for the input `a`, NUL,
`b` the body pass of the sample environment renders the paragraph
`<p>a NUL b</p>`, and the call, which succeeds, appends only `<p>a`, the text
up to the NUL, and not the rendering. -/
theorem output_assembly_counterexample :
    (markdownToHTML sampleEnv ['a', Char.ofNat 0, 'b'] noExtensions noOptions []).1
      = Error.Success
    ∧ (markdownToHTML sampleEnv ['a', Char.ofNat 0, 'b'] noExtensions noOptions []).2
      = "<p>a".toList
    ∧ (markdownToHTML sampleEnv ['a', Char.ofNat 0, 'b'] noExtensions noOptions []).2
      ≠ [] ++ [] ++ sampleEnv.sd_markdown_render (mdExt sampleEnv.MKDEXT noExtensions) kMaxNesting
          (Renderer.html (htmlRenderMode sampleEnv.HTML noOptions)) ['a', Char.ofNat 0, 'b'] := by
  decide

/-- C3, amended (TOC ordering).  Take a successful call with `options.toc` set
in which every key of the math table is a UUID of 32 hexadecimal digits (no
key at all without `ignoreMath`).  Both passes succeeded on the protected
input, and the output string after the call is: the content it had before the
call, then the TOC container block (the two opening lines, the TOC-pass
output, the closing `</div>` with an empty line), then the body-pass output,
where with `ignoreMath` each of the three texts has gone through the math
restoration and the container lines stand as they are.  With `ignoreMath` off
nothing is restored.  If the output string was empty before the call, the
output begins with the TOC container block and the body-pass output comes
right after it. -/
theorem toc_precedes_body (env : Env) (input : Str) (e : Extensions) (options : HTMLOptions)
    (htmlOutput : Str) (htoc : options.toc = true)
    (hok : (markdownToHTML env input e options htmlOutput).1 = Error.Success)
    (huuid : ∀ block ∈ mathTable env input e, isUuid block.1 = true) :
    ∃ tocOutput bodyOutput : Str,
      renderMarkdown env (protectedInput env input e) e options.smartypants Renderer.toc
        = Except.ok tocOutput
      ∧ renderMarkdown env (protectedInput env input e) e options.smartypants
          (Renderer.html (htmlRenderMode env.HTML options)) = Except.ok bodyOutput
      ∧ (markdownToHTML env input e options htmlOutput).2
          = restoreMath env input e htmlOutput
            ++ tocContainer (restoreMath env input e tocOutput)
            ++ restoreMath env input e bodyOutput
      ∧ (e.ignoreMath = false →
          (markdownToHTML env input e options htmlOutput).2
            = htmlOutput ++ tocContainer tocOutput ++ bodyOutput)
      ∧ (htmlOutput = [] →
          (markdownToHTML env input e options htmlOutput).2
            = tocContainer (restoreMath env input e tocOutput)
              ++ restoreMath env input e bodyOutput)
      ∧ (htmlOutput = [] →
          "<div id=\"toc\">\n<div id=\"toc_header\">Table of Contents</div>\n".toList
            <+: (markdownToHTML env input e options htmlOutput).2) := by
  have hfinal : ∀ tocOutput bodyOutput : Str,
      restoreMath env input e (htmlOutput ++ tocContainer tocOutput ++ bodyOutput)
        = restoreMath env input e htmlOutput
          ++ tocContainer (restoreMath env input e tocOutput)
          ++ restoreMath env input e bodyOutput := by
    intro tocOutput bodyOutput
    simp only [restoreMath_eq, tocContainer_eq]
    have := foldl_restore_container (mathTable env input e) huuid htmlOutput tocOutput bodyOutput
    simpa [List.append_assoc] using this
  have hnil : restoreMath env input e [] = [] := by
    rw [restoreMath_eq]
    exact foldl_restore_nil _
  rw [markdownToHTML_eq] at hok ⊢
  simp only at hok ⊢
  unfold markdownToHTMLPasses at hok ⊢
  cases hi : env.inputBufferAllocated (protectedInput env input e)
  · simp [hi, allocationError] at hok
  · simp only [hi, Bool.not_true, Bool.false_eq_true, if_false, htoc, if_true] at hok ⊢
    cases ht : renderMarkdown env (protectedInput env input e) e options.smartypants Renderer.toc with
    | error err =>
      simp only [ht] at hok
      rw [renderMarkdown_error ht] at hok
      exact absurd hok (by decide)
    | ok tocOutput =>
      simp only [ht] at hok ⊢
      cases hb : renderMarkdown env (protectedInput env input e) e options.smartypants
          (Renderer.html (htmlRenderMode env.HTML options)) with
      | error err =>
        simp only [hb] at hok
        rw [renderMarkdown_error hb] at hok
        exact absurd hok (by decide)
      | ok bodyOutput =>
        refine ⟨tocOutput, bodyOutput, rfl, rfl, hfinal tocOutput bodyOutput, ?_, ?_, ?_⟩
        · intro hm
          simp [restoreMath, hm]
        · intro hempty
          subst hempty
          simp only
          rw [hfinal, hnil, List.nil_append]
        · intro hempty
          subst hempty
          simp only
          rw [hfinal, hnil, List.nil_append, tocContainer_eq]
          exact ⟨restoreMath env input e tocOutput ++ tocClose
            ++ restoreMath env input e bodyOutput, by simp [tocOpen]⟩

set_option maxRecDepth 4000 in
/-- C3 amended, at the second sample environment with `ignoreMath` set, a
heading that holds inline math, and an empty output string: the only key of
the math table is a UUID, the call succeeds, and the output begins with the
TOC container block. -/
theorem toc_precedes_body_witness :
    (markdownToHTML sampleEnvEcho "# $E=mc^2$".toList { noExtensions with ignoreMath := true }
        { noOptions with toc := true } []).1 = Error.Success
    ∧ (∀ block ∈ mathTable sampleEnvEcho "# $E=mc^2$".toList
          { noExtensions with ignoreMath := true }, isUuid block.1 = true)
    ∧ (markdownToHTML sampleEnvEcho "# $E=mc^2$".toList { noExtensions with ignoreMath := true }
        { noOptions with toc := true } []).2
      = ("<div id=\"toc\">\n<div id=\"toc_header\">Table of Contents</div>\n"
          ++ "<ul>\n<li># $E=mc^2$</li>\n</ul>\n" ++ "</div>\n\n"
          ++ "<p># $E=mc^2$</p>\n").toList
    ∧ ∃ tocOutput bodyOutput : Str,
      renderMarkdown sampleEnvEcho
          (protectedInput sampleEnvEcho "# $E=mc^2$".toList
            { noExtensions with ignoreMath := true })
          { noExtensions with ignoreMath := true } false Renderer.toc = Except.ok tocOutput
      ∧ renderMarkdown sampleEnvEcho
          (protectedInput sampleEnvEcho "# $E=mc^2$".toList
            { noExtensions with ignoreMath := true })
          { noExtensions with ignoreMath := true } false
          (Renderer.html (htmlRenderMode sampleEnvEcho.HTML { noOptions with toc := true }))
          = Except.ok bodyOutput
      ∧ (markdownToHTML sampleEnvEcho "# $E=mc^2$".toList
          { noExtensions with ignoreMath := true } { noOptions with toc := true } []).2
          = restoreMath sampleEnvEcho "# $E=mc^2$".toList
              { noExtensions with ignoreMath := true } []
            ++ tocContainer (restoreMath sampleEnvEcho "# $E=mc^2$".toList
                { noExtensions with ignoreMath := true } tocOutput)
            ++ restoreMath sampleEnvEcho "# $E=mc^2$".toList
                { noExtensions with ignoreMath := true } bodyOutput
      ∧ (({ noExtensions with ignoreMath := true } : Extensions).ignoreMath = false →
          (markdownToHTML sampleEnvEcho "# $E=mc^2$".toList
              { noExtensions with ignoreMath := true } { noOptions with toc := true } []).2
            = [] ++ tocContainer tocOutput ++ bodyOutput)
      ∧ (([] : Str) = [] →
          (markdownToHTML sampleEnvEcho "# $E=mc^2$".toList
              { noExtensions with ignoreMath := true } { noOptions with toc := true } []).2
            = tocContainer (restoreMath sampleEnvEcho "# $E=mc^2$".toList
                { noExtensions with ignoreMath := true } tocOutput)
              ++ restoreMath sampleEnvEcho "# $E=mc^2$".toList
                { noExtensions with ignoreMath := true } bodyOutput)
      ∧ (([] : Str) = [] →
          "<div id=\"toc\">\n<div id=\"toc_header\">Table of Contents</div>\n".toList
            <+: (markdownToHTML sampleEnvEcho "# $E=mc^2$".toList
              { noExtensions with ignoreMath := true } { noOptions with toc := true } []).2) :=
  ⟨by decide, by decide, by decide,
    toc_precedes_body sampleEnvEcho "# $E=mc^2$".toList { noExtensions with ignoreMath := true }
      { noOptions with toc := true } [] rfl (by decide) (by decide)⟩

set_option maxRecDepth 4000 in
/-- C3 as stated fails at a call with `toc` and `ignoreMath` set, a heading
that holds inline math and an output string that is not empty.  The call
succeeds and its only placeholder is a UUID.  The output begins with the old
content, not with the TOC container block; and the TOC-pass output, which
holds the placeholder, is nowhere in the output, where the math text stands
in its place. -/
theorem toc_ordering_counterexample :
    (markdownToHTML sampleEnvEcho "# $E=mc^2$".toList { noExtensions with ignoreMath := true }
        { noOptions with toc := true } "<p>old</p>\n".toList).1 = Error.Success
    ∧ (∀ block ∈ mathTable sampleEnvEcho "# $E=mc^2$".toList
          { noExtensions with ignoreMath := true }, isUuid block.1 = true)
    ∧ renderMarkdown sampleEnvEcho
          (protectedInput sampleEnvEcho "# $E=mc^2$".toList
            { noExtensions with ignoreMath := true })
          { noExtensions with ignoreMath := true } false Renderer.toc
        = Except.ok "<ul>\n<li># 1b4e28ba2fa111d2883f0016d3cca427</li>\n</ul>\n".toList
    ∧ (markdownToHTML sampleEnvEcho "# $E=mc^2$".toList { noExtensions with ignoreMath := true }
        { noOptions with toc := true } "<p>old</p>\n".toList).2
      = ("<p>old</p>\n<div id=\"toc\">\n<div id=\"toc_header\">Table of Contents</div>\n"
          ++ "<ul>\n<li># $E=mc^2$</li>\n</ul>\n</div>\n\n<p># $E=mc^2$</p>\n").toList
    ∧ ¬ ("<div id=\"toc\">".toList <+:
        (markdownToHTML sampleEnvEcho "# $E=mc^2$".toList
          { noExtensions with ignoreMath := true } { noOptions with toc := true }
          "<p>old</p>\n".toList).2)
    ∧ ¬ ("<ul>\n<li># 1b4e28ba2fa111d2883f0016d3cca427</li>\n</ul>\n".toList <:+:
        (markdownToHTML sampleEnvEcho "# $E=mc^2$".toList
          { noExtensions with ignoreMath := true } { noOptions with toc := true }
          "<p>old</p>\n".toList).2) :=
  ⟨by decide, by decide, rfl, by decide, by decide, by decide⟩

/-- C1 at the input `$a $$b$$ c$`, with a UUID sequence that never repeats.
The block scan replaces `$$b$$` by the first UUID, the inline scan replaces the
whole text, first UUID included, by the second one.  The body pass keeps the
placeholder intact.  The destructor restores in key order: the first UUID is
the smaller key, it is looked for before the text that contains it is put
back, and it stays in the output: `$$b$$` does not appear in the final HTML.
With the same two UUIDs drawn in the other order the input comes back whole. -/
theorem nested_math_placeholder_leak :
    Function.Injective sampleEnv.generateUuid
    ∧ MathFilter.new sampleUuid "$a $$b$$ c$".toList
      = (sampleUuid 1,
         { mathBlocks_ := [(sampleUuid 0, "$$b$$".toList),
                           (sampleUuid 1, "$a ".toList ++ sampleUuid 0 ++ " c$".toList)],
           uuids := 2 })
    ∧ markdownToHTML sampleEnv "$a $$b$$ c$".toList { noExtensions with ignoreMath := true }
        noOptions []
      = (Error.Success, "<p>$a 1b4e28ba2fa111d2883f0016d3cca427 c$</p>\n".toList)
    ∧ ¬ ("$$b$$".toList <:+:
        (markdownToHTML sampleEnv "$a $$b$$ c$".toList { noExtensions with ignoreMath := true }
          noOptions []).2)
    ∧ markdownToHTML sampleEnvSwapped "$a $$b$$ c$".toList
        { noExtensions with ignoreMath := true } noOptions []
      = (Error.Success, "<p>$a $$b$$ c$</p>\n".toList) :=
  ⟨sampleUuid_injective, by decide, by decide, by decide, by decide⟩

/-- C2 at a call with `toc` set where the TOC pass succeeds and the parser of
the body pass cannot be allocated: the call returns the allocation error, and
the output string, empty before the call, holds the TOC container. -/
theorem toc_container_kept_on_body_failure :
    markdownToHTML sampleEnvBodyFails "# Title".toList noExtensions { noOptions with toc := true } []
      = (Error.not_enough_memory,
         ("<div id=\"toc\">\n<div id=\"toc_header\">Table of Contents</div>\n"
           ++ "<ul>\n</ul>\n</div>\n\n").toList) := by
  decide

end Markdown
